import Mathlib

/-!
Verification of the Bluetooth passthrough core (`BTReal.cpp`) against its
natural-language specification.  The C++ source is shallowly embedded below:
pure helpers become Lean functions, the stateful device becomes explicit
state passing (`BTState`), and the externally visible effects of a call
(replies enqueued to the guest, asynchronous USB submissions, blocking
control transfers, bounded waits) are recorded as an explicit `Action` list
in program order.  Machine integers are modelled as `Nat` with explicit
`% 256` / `% 2^16` where the C++ truncates.

The repository ships only `BTReal.cpp`; the headers it includes
(`BTReal.h`, `hci.h`, `Common/Network.h`, `Common/StringUtil.h`) are not
part of the source tree, so the constants and string helpers they provide
are modelled from the specification, each marked `Modelled from the spec:`
in its doc comment.
-/

namespace BTReal

/-! ## Wire constants

Modelled from the spec: the HCI opcodes and event codes come from `hci.h`
(not in the source tree); the spec pins them as "byte values fixed by the
standard" (Reset, Read-Buffer-Size, Delete-Stored-Link-Key,
Write-Stored-Link-Key, Command-Complete, Link-Key-Notification, Vendor). -/

def HCI_CMD_RESET : Nat := 0x0C03

def HCI_CMD_READ_BUFFER_SIZE : Nat := 0x1005

def HCI_CMD_DELETE_STORED_LINK_KEY : Nat := 0x0C12

def HCI_CMD_WRITE_STORED_LINK_KEY : Nat := 0x0C11

def HCI_EVENT_COMMAND_COMPL : Nat := 0x0E

def HCI_EVENT_LINK_KEY_NOTIFICATION : Nat := 0x18

def HCI_EVENT_VENDOR : Nat := 0xFF

/-- Modelled from the spec: the HCI event endpoint (`HCI_EVENT` in the
missing header); the spec only names "the event endpoint", the standard
interrupt-IN endpoint address is 0x81. -/
def HCI_EVENT_ENDPOINT : Nat := 0x81

/-- Modelled from the spec: fixed buffer-size constants from the missing
`BTReal.h`.  The spec requires "fixed constant values supplied by this
core"; the source comment pins the ACL packet count at no more than 10. -/
def ACL_PKT_SIZE : Nat := 339

def ACL_PKT_NUM : Nat := 10

def SCO_PKT_SIZE : Nat := 64

def SCO_PKT_NUM : Nat := 0

/-- Modelled from the spec: the sync-button long-press threshold
(`SYNC_BUTTON_HOLD_MS_TO_RESET` in the missing header); the spec fixes it
at 10 seconds. -/
def SYNC_BUTTON_HOLD_MS_TO_RESET : Nat := 10000

/-- libusb transfer status codes used by the callbacks. -/
def LIBUSB_TRANSFER_COMPLETED : Nat := 0

def LIBUSB_TRANSFER_TIMED_OUT : Nat := 2

def LIBUSB_TRANSFER_NO_DEVICE : Nat := 5

/-! ## Link-Key Store

`s_link_keys` is a `std::map<btaddr_t, linkkey_t>`: an ordered map from
6-byte addresses (wire order) to 16-byte keys, compared lexicographically
by raw bytes.  We embed it as an association list kept strictly sorted by
the lexicographic byte order, which is exactly the `std::map` iteration
order that `SaveLinkKeys` and `SendHCIStoreLinkKeyCommand` observe. -/

abbrev Byte := Nat

abbrev BtAddr := List Byte

abbrev LinkKey := List Byte

abbrev LinkKeyMap := List (BtAddr × LinkKey)

/-- Lexicographic `<` on equal-length byte arrays (`std::array::operator<`). -/
def addrLt : List Byte → List Byte → Bool
  | [], [] => false
  | [], _ :: _ => true
  | _ :: _, [] => false
  | a :: as, b :: bs => if a < b then true else if b < a then false else addrLt as bs

/-- `s_link_keys[addr] = key`: insert or overwrite, keeping the list sorted. -/
def mapInsert : LinkKeyMap → BtAddr → LinkKey → LinkKeyMap
  | [], a, k => [(a, k)]
  | (b, v) :: t, a, k =>
    if addrLt a b then (a, k) :: (b, v) :: t
    else if a = b then (a, k) :: t
    else (b, v) :: mapInsert t a k

/-- `s_link_keys.erase(addr)`: remove the unique entry with this key, if any. -/
def mapErase : LinkKeyMap → BtAddr → LinkKeyMap
  | [], _ => []
  | (b, v) :: t, a => if b = a then t else (b, v) :: mapErase t a

/-- The `std::map` representation invariant: strictly sorted by address. -/
def mapWF (m : LinkKeyMap) : Prop :=
  m.Pairwise (fun x y => addrLt x.1 y.1 = true)

def validAddr (a : BtAddr) : Prop := a.length = 6 ∧ ∀ b ∈ a, b < 256

def validKey (k : LinkKey) : Prop := k.length = 16 ∧ ∀ b ∈ k, b < 256

def validEntries (m : LinkKeyMap) : Prop :=
  ∀ e ∈ m, validAddr e.1 ∧ validKey e.2

instance : DecidablePred validAddr := fun a => by unfold validAddr; infer_instance

instance : DecidablePred validKey := fun k => by unfold validKey; infer_instance

/-! ## Sync-button state machine -/

inductive SyncButtonState where
  | Unpressed
  | Held
  | Pressed
  | LongPressed
  | Ignored
  deriving DecidableEq, Repr

/-! ## Device state

The mutable state of `BluetoothReal` that the embedded operations touch:
the static link-key map and flags, the one-shot latches, the adapter
identity flag and the sync-button machine (state plus the `m_sync_button_held_timer`
reference point, in milliseconds). -/

structure BTState where
  linkKeys : LinkKeyMap
  needResetKeys : Bool
  showedFailedTransfer : Bool
  isWiiBtModule : Bool
  fakeReadBufferSizeReply : Bool
  fakeVendorCommandReply : Bool
  fakeVendorCommandReplyOpcode : Nat
  syncButtonState : SyncButtonState
  syncButtonTimerStart : Nat
  deriving DecidableEq, Repr

/-- State of a freshly opened session: empty store, latches clear, sync
button idle.  `isWiiBtModule` is false (a third-party adapter); theorems
about first-party adapters override the field explicitly. -/
def initBT : BTState :=
  { linkKeys := []
    needResetKeys := false
    showedFailedTransfer := false
    isWiiBtModule := false
    fakeReadBufferSizeReply := false
    fakeVendorCommandReply := false
    fakeVendorCommandReplyOpcode := 0
    syncButtonState := SyncButtonState.Unpressed
    syncButtonTimerStart := 0 }

/-- `BluetoothReal::UpdateSyncButtonState(is_held)`, with the timer made
explicit: `now` is the current clock and `syncButtonTimerStart` the value
recorded by the last `m_sync_button_held_timer.Update()`;
`GetTimeDifference()` is `now - start`.  The three `if` statements of the
source are kept in order (the second and third run on the state produced
by the previous one). -/
def UpdateSyncButtonState (s : BTState) (isHeld : Bool) (now : Nat) : BTState :=
  let st1 :=
    if s.syncButtonState = SyncButtonState.Unpressed ∧ isHeld = true then SyncButtonState.Held
    else s.syncButtonState
  let t1 :=
    if s.syncButtonState = SyncButtonState.Unpressed ∧ isHeld = true then now
    else s.syncButtonTimerStart
  let st2 :=
    if st1 = SyncButtonState.Held ∧ isHeld = true ∧ now - t1 > SYNC_BUTTON_HOLD_MS_TO_RESET then
      SyncButtonState.LongPressed
    else if st1 = SyncButtonState.Held ∧ isHeld = false then SyncButtonState.Pressed
    else st1
  let st3 :=
    if st2 = SyncButtonState.Ignored ∧ isHeld = false then SyncButtonState.Unpressed
    else st2
  { s with syncButtonState := st3, syncButtonTimerStart := t1 }

/-- `BluetoothReal::TriggerSyncButtonPressedEvent`. -/
def TriggerSyncButtonPressedEvent (s : BTState) : BTState :=
  { s with syncButtonState := SyncButtonState.Pressed }

/-- `BluetoothReal::TriggerSyncButtonHeldEvent`. -/
def TriggerSyncButtonHeldEvent (s : BTState) : BTState :=
  { s with syncButtonState := SyncButtonState.LongPressed }

/-! ## Guest requests and observable actions -/

/-- A `USB::V0CtrlMessage` (an `IOCTLV_USBV0_CTRLMSG` request).  `payload`
is the guest memory at `data_address` (`length` bytes, the HCI command
packet: 2-byte little-endian opcode, 1-byte parameter length, parameters). -/
structure CtrlMessage where
  handle : Nat
  bmRequestType : Nat
  bRequest : Nat
  wValue : Nat
  wIndex : Nat
  payload : List Byte
  deriving DecidableEq, Repr

/-- A `USB::V0IntrMessage` (an `IOCTLV_USBV0_BLKMSG` or
`IOCTLV_USBV0_INTRMSG` request): destination guest buffer descriptor. -/
structure IntrMessage where
  handle : Nat
  endpoint : Nat
  length : Nat
  deriving DecidableEq, Repr

/-- The three request kinds accepted by `BluetoothReal::IOCtlV`. -/
inductive Request where
  | ctrlMsg (c : CtrlMessage)
  | blkMsg (m : IntrMessage)
  | intrMsg (m : IntrMessage)
  deriving DecidableEq, Repr

def Request.handle : Request → Nat
  | .ctrlMsg c => c.handle
  | .blkMsg m => m.handle
  | .intrMsg m => m.handle

/-- Externally observable effects of a call, in program order.

* `enqueueReply h bytes len` — `EnqueueReply(request, len)` after writing
  `bytes` into the request's guest buffer;
* `submitControl h buffer` — `libusb_submit_transfer` of an asynchronous
  control transfer whose completion runs `CommandCallback` (buffer =
  8-byte libusb setup followed by the copied payload);
* `submitTransfer h ep len isBulk` — asynchronous bulk/interrupt transfer
  addressed at guest memory, completion runs `TransferCallback`;
* `controlTransferSync packet` — a blocking `libusb_control_transfer`
  (used by the key-resync and reset commands, no guest reply);
* `waitCommandComplete opcode` — a `WaitForHCICommandComplete(opcode)`
  bounded polling loop.

OSD messages (`Core::DisplayMessage`) and log lines are pure UI and are
not recorded. -/
inductive Action where
  | enqueueReply (handle : Nat) (bytes : List Byte) (len : Nat)
  | submitControl (handle : Nat) (buffer : List Byte)
  | submitTransfer (handle : Nat) (endpoint : Nat) (length : Nat) (isBulk : Bool)
  | controlTransferSync (packet : List Byte)
  | waitCommandComplete (opcode : Nat)
  deriving DecidableEq, Repr

/-- Byte `i` of a guest buffer; reads beyond the request's own payload
reach adjacent guest memory, modelled as 0. -/
def byteAt (p : List Byte) (i : Nat) : Byte := p.getD i 0

/-- `Common::swap16(Memory::Read_U16(addr))`: the guest stores the packet
byte-wise; a big-endian 16-bit read followed by a byte swap yields the
little-endian value `b0 + 256 * b1`. -/
def readOpcode (p : List Byte) : Nat := byteAt p 0 + 256 * byteAt p 1

/-- `hci_cmd_hdr_t`: 2-byte little-endian opcode then 1-byte length. -/
def cmdHeader (opcode len : Nat) : List Byte := [opcode % 256, opcode / 256 % 256, len]

/-- The packet built by `SendHCIDeleteLinkKeyCommand`: delete-all with a
zero address. -/
def SendHCIDeleteLinkKeyPacket : List Byte :=
  cmdHeader HCI_CMD_DELETE_STORED_LINK_KEY 7 ++ [0, 0, 0, 0, 0, 0] ++ [1]

/-- The packet built by `SendHCIStoreLinkKeyCommand` from the full store:
header, 1-byte entry count, then `count ×` (6-byte address + 16-byte key).
The C++ computes `payload_size` in `u8`, so it truncates mod 256 (and for
more than 11 entries the vector it sizes with the truncated value is
overrun — undefined behaviour; the model carries the full bytes). -/
def storeLinkKeyPacket (m : LinkKeyMap) : List Byte :=
  cmdHeader HCI_CMD_WRITE_STORED_LINK_KEY ((1 + 22 * m.length) % 256) ++
    [m.length % 256] ++ m.flatMap (fun e => e.1 ++ e.2)

/-- The actions of the key-resynchronization block at the top of `IOCtlV`
(delete-all command, wait, then — only when the store is non-empty,
`SendHCIStoreLinkKeyCommand` returns false otherwise — the write-stored
command and its wait). -/
def resyncActions (m : LinkKeyMap) : List Action :=
  [Action.controlTransferSync SendHCIDeleteLinkKeyPacket,
   Action.waitCommandComplete HCI_CMD_DELETE_STORED_LINK_KEY] ++
  (if m.isEmpty then []
   else [Action.controlTransferSync (storeLinkKeyPacket m),
         Action.waitCommandComplete HCI_CMD_WRITE_STORED_LINK_KEY])

/-! ## Fake-Reply Engine

`SHCIEventCommand` is the 5-byte command-complete event prefix
(modelled from the spec: 1-byte event code, 1-byte parameter length, then
parameters beginning with a 1-byte "num packets allowed" field and the
2-byte little-endian opcode).  The fake-reply functions read the guest's
in-flight event buffer and then overwrite every one of those fields, so
the synthesized prefix is fully determined. -/

def commandComplPacket (payloadLen opcode : Nat) : List Byte :=
  [HCI_EVENT_COMMAND_COMPL, payloadLen, 0x01, opcode % 256, opcode / 256 % 256]

/-- The 12 bytes written by `FakeReadBufferSizeReply`: command-complete
prefix (payload length `sizeof(SHCIEventCommand) - 2 + sizeof(rp) = 10`)
followed by the `hci_read_buffer_size_rp` payload — modelled from the
spec: 1-byte status + 2-byte max ACL size + 1-byte num ACL packets +
2-byte max SCO size + 1-byte num SCO packets, with the fixed constants. -/
def fakeReadBufferSizeBytes : List Byte :=
  commandComplPacket 10 HCI_CMD_READ_BUFFER_SIZE ++
    [0x00, ACL_PKT_SIZE % 256, ACL_PKT_SIZE / 256 % 256, ACL_PKT_NUM,
     SCO_PKT_SIZE % 256, SCO_PKT_SIZE / 256 % 256, SCO_PKT_NUM]

/-- The 5 bytes written by `FakeVendorCommandReply` for the remembered
opcode (payload length `sizeof(SHCIEventCommand) - 2 = 3`). -/
def fakeVendorCommandBytes (opcode : Nat) : List Byte :=
  commandComplPacket 3 opcode

/-- `FakeSyncButtonEvent`: 2-byte event header (vendor event code, payload
length) followed by the 1-byte payload. -/
def fakeSyncButtonEventBytes (payload : Byte) : List Byte :=
  [HCI_EVENT_VENDOR, 1, payload]

def syncPressedBytes : List Byte := fakeSyncButtonEventBytes 0x08

def syncHeldBytes : List Byte := fakeSyncButtonEventBytes 0x09

/-- `libusb_fill_control_setup`: the 8-byte setup packet (all multi-byte
fields little-endian), wLength = payload length. -/
def controlSetup (c : CtrlMessage) : List Byte :=
  [c.bmRequestType % 256, c.bRequest % 256,
   c.wValue % 256, c.wValue / 256 % 256,
   c.wIndex % 256, c.wIndex / 256 % 256,
   c.payload.length % 256, c.payload.length / 256 % 256]

/-! ## Transfer Lifecycle Manager: `BluetoothReal::IOCtlV` -/

/-- The `switch` statement of `BluetoothReal::IOCtlV` (the per-request
dispatch, run after the key-resync prelude).  Returns the successor state
and the observable actions in program order:
   * control: read the opcode; read-buffer-size sets its latch and
     returns with no reply and no forwarding; a vendor pairing opcode on a
     non-first-party adapter sets the vendor latch (remembering the
     opcode) and returns likewise; delete-stored-link-key mutates the
     store (the source copies `sizeof(hci_delete_stored_link_key_cp) = 7`
     bytes from `data_address`, i.e. from the start of the command packet:
     its `bdaddr` field receives payload bytes 0–5 and its `delete_all`
     field payload byte 6) and falls through; every non-latched command is
     forwarded as an asynchronous control transfer (setup + payload);
   * bulk: forwarded as an asynchronous bulk transfer;
   * interrupt: the four fake-reply checks in priority order (sync
     Pressed, sync LongPressed, read-buffer-size latch, vendor latch),
     otherwise forwarded as an asynchronous interrupt transfer. -/
def IOCtlVBody (s1 : BTState) (r : Request) : BTState × List Action :=
  match r with
  | .ctrlMsg c =>
    let opcode := readOpcode c.payload
    if opcode = HCI_CMD_READ_BUFFER_SIZE then
      ({ s1 with fakeReadBufferSizeReply := true }, [])
    else if s1.isWiiBtModule = false ∧ (opcode = 0xFC4C ∨ opcode = 0xFC4F) then
      ({ s1 with fakeVendorCommandReply := true, fakeVendorCommandReplyOpcode := opcode }, [])
    else
      let s2 :=
        if opcode = HCI_CMD_DELETE_STORED_LINK_KEY then
          let addr := [byteAt c.payload 0, byteAt c.payload 1, byteAt c.payload 2,
                       byteAt c.payload 3, byteAt c.payload 4, byteAt c.payload 5]
          if byteAt c.payload 6 ≠ 0 then { s1 with linkKeys := [] }
          else { s1 with linkKeys := mapErase s1.linkKeys addr }
        else s1
      (s2, [Action.submitControl c.handle (controlSetup c ++ c.payload)])
  | .blkMsg m =>
    (s1, [Action.submitTransfer m.handle m.endpoint m.length true])
  | .intrMsg m =>
    if s1.syncButtonState = SyncButtonState.Pressed then
      ({ s1 with syncButtonState := SyncButtonState.Ignored },
       [Action.enqueueReply m.handle syncPressedBytes 3])
    else if s1.syncButtonState = SyncButtonState.LongPressed then
      ({ s1 with syncButtonState := SyncButtonState.Ignored },
       [Action.enqueueReply m.handle syncHeldBytes 3])
    else if s1.fakeReadBufferSizeReply = true then
      ({ s1 with fakeReadBufferSizeReply := false },
       [Action.enqueueReply m.handle fakeReadBufferSizeBytes 12])
    else if s1.fakeVendorCommandReply = true then
      ({ s1 with fakeVendorCommandReply := false },
       [Action.enqueueReply m.handle
         (fakeVendorCommandBytes s1.fakeVendorCommandReplyOpcode) 5])
    else
      (s1, [Action.submitTransfer m.handle m.endpoint m.length false])

/-- `BluetoothReal::IOCtlV(request)`: the key-resync prelude
(`!m_is_wii_bt_module && s_need_reset_keys.TestAndClear()` — on a
non-first-party adapter with the latch set, clear it and emit the
resynchronization commands before anything else), then the `switch` on
the request kind (`IOCtlVBody`). -/
def IOCtlV (s : BTState) (r : Request) : BTState × List Action :=
  if s.isWiiBtModule = false ∧ s.needResetKeys = true then
    ((IOCtlVBody { s with needResetKeys := false } r).1,
      resyncActions s.linkKeys ++ (IOCtlVBody { s with needResetKeys := false } r).2)
  else IOCtlVBody s r

/-! ## Transport completion callbacks -/

/-- Result of a completed (or failed) libusb transfer: the libusb status,
the reported byte count, and — for inbound transfers — the bytes the
adapter delivered into the transfer buffer. -/
structure TransferResult where
  status : Nat
  actualLength : Nat
  buffer : List Byte
  deriving DecidableEq, Repr

/-- `BluetoothReal::CommandCallback`: update the failed-transfer notice
latch (an error status other than no-device shows the notice once and
sets the flag; otherwise the flag is cleared), copy the adapter's
response into the guest reply buffer (`FillBuffer`), and enqueue exactly
one reply with the transferred byte count. -/
def CommandCallback (s : BTState) (handle : Nat) (res : TransferResult) :
    BTState × List Action :=
  let s' :=
    if res.status ≠ LIBUSB_TRANSFER_COMPLETED ∧ res.status ≠ LIBUSB_TRANSFER_NO_DEVICE then
      { s with showedFailedTransfer := true }
    else { s with showedFailedTransfer := false }
  (s', [Action.enqueueReply handle (res.buffer.take res.actualLength) res.actualLength])

/-- `BluetoothReal::TransferCallback`: update the notice latch (timeouts
and no-device are not errors here), then — only for a fully completed
transfer on the event endpoint — react to the payload: a link-key
notification (address bytes 2–7, key bytes 8–23) upserts the store; a
command-complete for the reset opcode (little-endian at bytes 3–4) raises
the needs-key-resync latch.  Exactly one reply is enqueued in all cases. -/
def TransferCallback (s : BTState) (handle endpoint : Nat) (res : TransferResult) :
    BTState × List Action :=
  let s' :=
    if res.status ≠ LIBUSB_TRANSFER_COMPLETED ∧ res.status ≠ LIBUSB_TRANSFER_TIMED_OUT ∧
        res.status ≠ LIBUSB_TRANSFER_NO_DEVICE then
      { s with showedFailedTransfer := true }
    else { s with showedFailedTransfer := false }
  let s'' :=
    if res.status = LIBUSB_TRANSFER_COMPLETED ∧ endpoint = HCI_EVENT_ENDPOINT then
      if byteAt res.buffer 0 = HCI_EVENT_LINK_KEY_NOTIFICATION then
        let addr := [byteAt res.buffer 2, byteAt res.buffer 3, byteAt res.buffer 4,
                     byteAt res.buffer 5, byteAt res.buffer 6, byteAt res.buffer 7]
        let key := (List.range 16).map (fun i => byteAt res.buffer (8 + i))
        { s' with linkKeys := mapInsert s'.linkKeys addr key }
      else if byteAt res.buffer 0 = HCI_EVENT_COMMAND_COMPL ∧
          byteAt res.buffer 3 + 256 * byteAt res.buffer 4 = HCI_CMD_RESET then
        { s' with needResetKeys := true }
      else s'
    else s'
  (s'', [Action.enqueueReply handle (res.buffer.take res.actualLength) res.actualLength])

/-- Does one `libusb_interrupt_transfer` poll outcome carry the
command-complete event for `opcode`?  (`none` models a failed transfer;
the event code is at byte 0, the completed opcode little-endian at bytes
3–4, which is where `SHCIEventCommand::Opcode` sits.) -/
def hciEventMatches (opcode : Nat) (o : Option (List Byte)) : Bool :=
  match o with
  | none => false
  | some buf =>
    byteAt buf 0 = HCI_EVENT_COMMAND_COMPL ∧ byteAt buf 3 + 256 * byteAt buf 4 = opcode

/-- The `for (tries = 0; tries < 100; ++tries)` polling loop of
`WaitForHCICommandComplete`, breaking at the first matching event;
`tries` is the index of the next attempt and `fuel` the remaining
attempts.  Returns the number of attempts made. -/
def waitLoop (opcode : Nat) (events : Nat → Option (List Byte)) (tries fuel : Nat) : Nat :=
  match fuel with
  | 0 => tries
  | n + 1 =>
    if hciEventMatches opcode (events tries) then tries + 1
    else waitLoop opcode events (tries + 1) n

/-- `BluetoothReal::WaitForHCICommandComplete(opcode)`: poll the event
endpoint for the command-complete event of `opcode`, giving up after 100
attempts ("Only try 100 transfers at most, to avoid being stuck in an
infinite loop").  `events i` is the outcome of the `i`-th poll.  Returns
the number of polls performed. -/
def WaitForHCICommandComplete (opcode : Nat) (events : Nat → Option (List Byte)) : Nat :=
  waitLoop opcode events 0 100

/-! ## Savestates: `BluetoothReal::DoState` -/

/-- `PointerWrap` modes. -/
inductive PWMode where
  | read
  | write
  | measure
  | verify
  deriving DecidableEq, Repr

/-- `BluetoothReal::DoState(p)`.  The local `passthrough_bluetooth` is
initialized to true and serialized: a load (`MODE_READ`) overwrites it
with `storedFlag`, the bool recorded in the incoming savestate.  Every
load attempt warns the operator ("Attempted to load a state. Bluetooth
will likely be broken now."); only when the loaded flag is false is the
"Aborting load" message shown and the mode forced to `MODE_VERIFY`.  The
function touches none of the passthrough core's state, which is returned
unchanged.  Result: (device state, final mode, number of operator
warnings shown). -/
def DoState (s : BTState) (mode : PWMode) (storedFlag : Bool) : BTState × PWMode × Nat :=
  let passthroughBluetooth := if mode = PWMode.read then storedFlag else true
  let warnings := if mode = PWMode.read then 1 else 0
  if passthroughBluetooth = false ∧ mode = PWMode.read then
    (s, PWMode.verify, warnings + 1)
  else (s, mode, warnings)

/-! ## Link-Key Store serialization

`SaveLinkKeys` / `LoadLinkKeys` turn the store into/out of the textual
configuration value: a comma-separated list of `address=hexkey` pairs,
the address in colon-delimited display order (the reverse of its wire
order), the key as 32 lowercase hex digits.  The string helpers they use
(`SplitString`, `Common::StringToMacAddress`, `Common::MacAddressToString`)
live in `Common/` which is not in the source tree and are modelled from
the spec.  Text is embedded as `List Char`. -/

/-- Lowercase hex digit for a value below 16 (`std::hex` output). -/
def hexDigit (n : Nat) : Char :=
  match n with
  | 0 => '0' | 1 => '1' | 2 => '2' | 3 => '3' | 4 => '4'
  | 5 => '5' | 6 => '6' | 7 => '7' | 8 => '8' | 9 => '9'
  | 10 => 'a' | 11 => 'b' | 12 => 'c' | 13 => 'd' | 14 => 'e'
  | _ => 'f'

/-- Is this a hex digit `std::istream` with `std::hex` would consume? -/
def isHexDigit (c : Char) : Bool :=
  ('0' ≤ c ∧ c ≤ '9') ∨ ('a' ≤ c ∧ c ≤ 'f') ∨ ('A' ≤ c ∧ c ≤ 'F')

/-- Value of a hex digit (0 on non-digits; only applied to digits). -/
def hexVal (c : Char) : Nat :=
  if '0' ≤ c ∧ c ≤ '9' then c.toNat - 48
  else if 'a' ≤ c ∧ c ≤ 'f' then c.toNat - 87
  else if 'A' ≤ c ∧ c ≤ 'F' then c.toNat - 55
  else 0

/-- Two-digit lowercase hex of a byte (`setfill('0') << setw(2) << hex`). -/
def byteToHexPair (b : Byte) : List Char := [hexDigit (b / 16), hexDigit (b % 16)]

/-- `std::istringstream >> std::hex >> value` applied to a short piece of
text: consume the leading hex digits and read them as a base-16 number.
When no digit can be consumed the C++ extraction fails and leaves `value`
uninitialized; the fold then yields 0, standing in for that unspecified
value. -/
def parseHexGroup (s : List Char) : Nat :=
  (s.takeWhile isHexDigit).foldl (fun a c => 16 * a + hexVal c) 0

/-- Split text at every separator the predicate accepts (the behaviour of
`SplitString`, modelled from the spec: "a comma-separated list").  A
trailing separator yields a trailing empty piece, which every consumer
below skips, matching the `std::getline`-based helper observably. -/
def splitOnP (p : Char → Bool) : List Char → List (List Char)
  | [] => [[]]
  | c :: rest =>
    let r := splitOnP p rest
    if p c then [] :: r
    else
      match r with
      | [] => [[c]]
      | g :: gs => (c :: g) :: gs

/-- Join pieces with a single separator character (no trailing separator,
as produced by appending a separator per entry and popping the last
character). -/
def joinSep (sep : Char) : List (List Char) → List Char
  | [] => []
  | [p] => p
  | p :: ps => p ++ sep :: joinSep sep ps

/-- Modelled from the spec: `Common::MacAddressToString` renders 6 bytes
in display order as colon-delimited two-digit lowercase hex. -/
def MacAddressToString (a : List Byte) : List Char :=
  joinSep ':' (a.map byteToHexPair)

/-- Decode one colon/hyphen-delimited group of a textual address. -/
def macGroupVal (g : List Char) : Byte :=
  match g with
  | [c1, c2] => 16 * hexVal c1 + hexVal c2
  | _ => 0

/-- Modelled from the spec: `Common::StringToMacAddress` parses a
colon/hyphen-delimited hex representation into 6 bytes (`none` on
malformed input; the C++ helper then leaves its output bytes unspecified
and `LoadLinkKeys` ignores the failure). -/
def StringToMacAddress (s : List Char) : Option (List Byte) :=
  let groups := splitOnP (fun c => c = ':' ∨ c = '-') s
  if groups.length = 6 ∧ ∀ g ∈ groups, g.length = 2 ∧ g.all isHexDigit then
    some (groups.map macGroupVal)
  else none

/-- Group the key text two characters at a time (`substr(i, 2)` for
`i = 0, 2, 4, …`; the final group is a single character when the length
is odd). -/
def hexGroups : List Char → List (List Char)
  | [] => []
  | [c] => [[c]]
  | c1 :: c2 :: rest => [c1, c2] :: hexGroups rest

/-- The 16-byte key array filled by the `LoadLinkKeys` decode loop: each
two-character group is parsed and written at the next position.  The C++
array is uninitialized, so positions past the decoded prefix hold
unspecified bytes (modelled as 0), and writes past index 15 (a key text
longer than 32 characters) overrun the array — undefined behaviour,
modelled as dropped. -/
def keyFromHex (s : List Char) : LinkKey :=
  (((hexGroups s).map parseHexGroup).take 16 ++ List.replicate 16 0).take 16

/-- One iteration of the `LoadLinkKeys` loop on a `pair` piece: skip when
it has no `=`; otherwise parse the part before the first `=` as a display
address, reverse it to wire order, decode the part after it as the key,
and store the entry. -/
def loadLinkKeysEntry (m : LinkKeyMap) (pair : List Char) : LinkKeyMap :=
  if ('=' ∈ pair : Bool) = false then m
  else
    let addrText := pair.takeWhile (fun c => c ≠ '=')
    let keyText := (pair.dropWhile (fun c => c ≠ '=')).tail
    let address := ((StringToMacAddress addrText).getD (List.replicate 6 0)).reverse
    mapInsert m address (keyFromHex keyText)

/-- `BluetoothReal::LoadLinkKeys`: nothing to do on an empty configuration
value; otherwise split at commas and process every piece, accumulating
into the existing store `m` (`s_link_keys`). -/
def LoadLinkKeys (entries : List Char) (m : LinkKeyMap) : LinkKeyMap :=
  if entries.isEmpty then m
  else (splitOnP (fun c => c = ',') entries).foldl loadLinkKeysEntry m

/-- The text `SaveLinkKeys` emits for one entry: display-order address
(wire address reversed), `=`, then the 16 key bytes in two-digit hex. -/
def saveLinkKeysEntry (e : BtAddr × LinkKey) : List Char :=
  MacAddressToString e.1.reverse ++ '=' :: e.2.flatMap byteToHexPair

/-- `BluetoothReal::SaveLinkKeys`: serialize every entry followed by a
comma, then pop the trailing comma (skipped when the result is empty). -/
def SaveLinkKeys (m : LinkKeyMap) : List Char :=
  (m.flatMap (fun e => saveLinkKeysEntry e ++ [','])).dropLast

/-! ## Link-Key Store operation language (for the round-trip claim) -/

/-- The store mutations named by the spec: upsert (link-key notification
events), delete-one and delete-all (guest delete-stored-link-key
commands). -/
inductive LinkKeyOp where
  | upsert (a : BtAddr) (k : LinkKey)
  | deleteOne (a : BtAddr)
  | deleteAll
  deriving DecidableEq, Repr

def applyOp (m : LinkKeyMap) : LinkKeyOp → LinkKeyMap
  | .upsert a k => mapInsert m a k
  | .deleteOne a => mapErase m a
  | .deleteAll => []

def applyOps (m : LinkKeyMap) (ops : List LinkKeyOp) : LinkKeyMap :=
  ops.foldl applyOp m

/-- Upserted data is what the wire delivers: 6 address bytes and 16 key
bytes.  Deletions need no constraint. -/
def validOp : LinkKeyOp → Prop
  | .upsert a k => validAddr a ∧ validKey k
  | .deleteOne _ => True
  | .deleteAll => True

instance : DecidablePred validOp := fun op => by cases op <;> unfold validOp <;> infer_instance

/-! ## Whole-session request/reply accounting

The transport collaborator guarantees exactly one completion callback per
submitted transfer; a session run is therefore a sequence of events, each
either a guest request (dispatched through `IOCtlV`) or the completion of
one currently in-flight transfer.  `SysState` tracks the in-flight
transfers and every reply delivered so far. -/

/-- An in-flight asynchronous transfer: the owning request's handle, and
what the completion callback will be (`CommandCallback` for control
transfers, `TransferCallback` with the recorded endpoint otherwise). -/
structure PendingTransfer where
  handle : Nat
  isControl : Bool
  endpoint : Nat
  deriving DecidableEq, Repr

def pendingOfAction : Action → Option PendingTransfer
  | .submitControl h _ => some ⟨h, true, 0⟩
  | .submitTransfer h ep _ _ => some ⟨h, false, ep⟩
  | _ => none

def replyOfAction : Action → Option (Nat × Nat)
  | .enqueueReply h _ len => some (h, len)
  | _ => none

/-- The replies among a list of actions, with their full content:
(request handle, bytes written to the guest buffer, reported length). -/
def replyActions (acts : List Action) : List (Nat × List Byte × Nat) :=
  acts.filterMap (fun a =>
    match a with
    | .enqueueReply h bytes len => some (h, bytes, len)
    | _ => none)

structure SysState where
  bt : BTState
  pending : List PendingTransfer
  replies : List (Nat × Nat)
  deriving DecidableEq, Repr

def initSys (bt : BTState) : SysState := { bt := bt, pending := [], replies := [] }

/-- One run event: a guest request arriving, or the background thread
delivering the completion of the `i`-th in-flight transfer with outcome
`res` (out-of-range indices are impossible for the real transport and do
nothing here). -/
inductive SysEvent where
  | request (r : Request)
  | complete (i : Nat) (res : TransferResult)
  deriving DecidableEq, Repr

def runCallback (bt : BTState) (p : PendingTransfer) (res : TransferResult) :
    BTState × List Action :=
  if p.isControl then CommandCallback bt p.handle res
  else TransferCallback bt p.handle p.endpoint res

def stepSys (σ : SysState) : SysEvent → SysState
  | .request r =>
    { bt := (IOCtlV σ.bt r).1
      pending := σ.pending ++ ((IOCtlV σ.bt r).2.filterMap pendingOfAction)
      replies := σ.replies ++ ((IOCtlV σ.bt r).2.filterMap replyOfAction) }
  | .complete i res =>
    match σ.pending.get? i with
    | none => σ
    | some p =>
      { bt := (runCallback σ.bt p res).1
        pending := σ.pending.eraseIdx i
        replies := σ.replies ++ ((runCallback σ.bt p res).2.filterMap replyOfAction) }

def runSys (σ : SysState) (events : List SysEvent) : SysState :=
  events.foldl stepSys σ

/-- A control request the Transfer Lifecycle Manager latches instead of
forwarding: a read-buffer-size command, or a vendor pairing command on a
non-first-party adapter.  `isWiiBtModule` never changes during a run, so
this is a pure function of the initial adapter identity and the request. -/
def latchedRequest (isWiiBtModule : Bool) : Request → Bool
  | .ctrlMsg c =>
    readOpcode c.payload = HCI_CMD_READ_BUFFER_SIZE ∨
      (isWiiBtModule = false ∧ (readOpcode c.payload = 0xFC4C ∨ readOpcode c.payload = 0xFC4F))
  | _ => false

/-- Requests with handle `h` among the events, counted when `keep` accepts
them. -/
def countRequests (keep : Request → Bool) (h : Nat) (events : List SysEvent) : Nat :=
  events.countP (fun e =>
    match e with
    | .request r => keep r ∧ r.handle = h
    | .complete _ _ => false)

def countReplies (h : Nat) (σ : SysState) : Nat := σ.replies.countP (fun x => x.1 = h)

def countPending (h : Nat) (σ : SysState) : Nat := σ.pending.countP (fun p => p.handle = h)

/-- The handles of all guest requests among the events, in order. -/
def requestHandles (events : List SysEvent) : List Nat :=
  events.filterMap (fun e =>
    match e with
    | .request r => some r.handle
    | .complete _ _ => none)

/-! ## Concrete request fixtures (test vectors for witnesses and counterexamples) -/

/-- A control request carrying the HCI command with the given opcode and
an empty parameter block. -/
def mkCtrl (h op : Nat) : CtrlMessage :=
  { handle := h, bmRequestType := 0x20, bRequest := 0, wValue := 0, wIndex := 0,
    payload := [op % 256, op / 256 % 256, 0] }

/-- An interrupt-direction request polling the event endpoint. -/
def mkIntr (h : Nat) : IntrMessage :=
  { handle := h, endpoint := HCI_EVENT_ENDPOINT, length := 64 }

/-! # Theorems -/

/-! ## Helper lemmas about the action extractors -/

@[simp]
theorem replyActions_nil : replyActions [] = [] := rfl

@[simp]
theorem replyActions_append (l1 l2 : List Action) :
    replyActions (l1 ++ l2) = replyActions l1 ++ replyActions l2 :=
  List.filterMap_append l1 l2 _

@[simp]
theorem replyActions_cons_enqueue (h : Nat) (b : List Byte) (l : Nat) (rest : List Action) :
    replyActions (Action.enqueueReply h b l :: rest) = (h, b, l) :: replyActions rest := rfl

@[simp]
theorem replyActions_cons_submitControl (h : Nat) (b : List Byte) (rest : List Action) :
    replyActions (Action.submitControl h b :: rest) = replyActions rest := rfl

@[simp]
theorem replyActions_cons_submitTransfer (h ep len : Nat) (ib : Bool) (rest : List Action) :
    replyActions (Action.submitTransfer h ep len ib :: rest) = replyActions rest := rfl

@[simp]
theorem replyActions_resync (m : LinkKeyMap) : replyActions (resyncActions m) = [] := by
  cases h : m.isEmpty <;> simp [resyncActions, replyActions, h]

@[simp]
theorem resync_filterMap_pending (m : LinkKeyMap) :
    (resyncActions m).filterMap pendingOfAction = [] := by
  cases h : m.isEmpty <;> simp [resyncActions, pendingOfAction, h]

@[simp]
theorem resync_filterMap_reply (m : LinkKeyMap) :
    (resyncActions m).filterMap replyOfAction = [] := by
  cases h : m.isEmpty <;> simp [resyncActions, replyOfAction, h]

/-! ## C7: the sync-button state machine -/

/-- Claim C7: the sync-button state machine follows exactly the specified
sequences: Unpressed + held sample → Held (restarting the timer); Held +
held sample after strictly more than the 10-second threshold →
LongPressed, and Held + released sample → Pressed (at or below the
threshold a held sample keeps it Held); an interrupt-direction request
consumes Pressed / LongPressed by synthesizing the corresponding
vendor-event packet and moves the machine to Ignored; Ignored returns to
Unpressed exactly on a released sample; Pressed and LongPressed are
untouched by further samples until consumed. -/
theorem C7_sync_button_state_machine :
    ∀ (s : BTState) (t now : Nat) (held : Bool) (m : IntrMessage),
      ((UpdateSyncButtonState
          { s with syncButtonState := SyncButtonState.Unpressed, syncButtonTimerStart := t }
          true now).syncButtonState = SyncButtonState.Held ∧
        (UpdateSyncButtonState
          { s with syncButtonState := SyncButtonState.Unpressed, syncButtonTimerStart := t }
          true now).syncButtonTimerStart = now) ∧
      (now - t > SYNC_BUTTON_HOLD_MS_TO_RESET →
        (UpdateSyncButtonState
          { s with syncButtonState := SyncButtonState.Held, syncButtonTimerStart := t }
          true now).syncButtonState = SyncButtonState.LongPressed) ∧
      (now - t ≤ SYNC_BUTTON_HOLD_MS_TO_RESET →
        (UpdateSyncButtonState
          { s with syncButtonState := SyncButtonState.Held, syncButtonTimerStart := t }
          true now).syncButtonState = SyncButtonState.Held) ∧
      ((UpdateSyncButtonState
          { s with syncButtonState := SyncButtonState.Held, syncButtonTimerStart := t }
          false now).syncButtonState = SyncButtonState.Pressed) ∧
      ((IOCtlV { s with syncButtonState := SyncButtonState.Pressed }
          (Request.intrMsg m)).1.syncButtonState = SyncButtonState.Ignored ∧
        replyActions (IOCtlV { s with syncButtonState := SyncButtonState.Pressed }
          (Request.intrMsg m)).2 = [(m.handle, syncPressedBytes, 3)]) ∧
      ((IOCtlV { s with syncButtonState := SyncButtonState.LongPressed }
          (Request.intrMsg m)).1.syncButtonState = SyncButtonState.Ignored ∧
        replyActions (IOCtlV { s with syncButtonState := SyncButtonState.LongPressed }
          (Request.intrMsg m)).2 = [(m.handle, syncHeldBytes, 3)]) ∧
      ((UpdateSyncButtonState { s with syncButtonState := SyncButtonState.Ignored }
          false now).syncButtonState = SyncButtonState.Unpressed) ∧
      ((UpdateSyncButtonState { s with syncButtonState := SyncButtonState.Ignored }
          true now).syncButtonState = SyncButtonState.Ignored) ∧
      ((UpdateSyncButtonState { s with syncButtonState := SyncButtonState.Pressed }
          held now).syncButtonState = SyncButtonState.Pressed) ∧
      ((UpdateSyncButtonState { s with syncButtonState := SyncButtonState.LongPressed }
          held now).syncButtonState = SyncButtonState.LongPressed) := by
  intro s t now held m
  refine ⟨⟨?_, ?_⟩, ?_, ?_, ?_, ?_, ?_, ?_, ?_, ?_, ?_⟩
  · simp [UpdateSyncButtonState]
  · simp [UpdateSyncButtonState]
  · intro h
    simp [UpdateSyncButtonState, h]
  · intro h
    simp [UpdateSyncButtonState, Nat.not_lt.mpr h]
  · simp [UpdateSyncButtonState]
  · constructor <;>
      by_cases hw : s.isWiiBtModule = false ∧ s.needResetKeys = true <;>
        simp [IOCtlV, IOCtlVBody, hw]
  · constructor <;>
      by_cases hw : s.isWiiBtModule = false ∧ s.needResetKeys = true <;>
        simp [IOCtlV, IOCtlVBody, hw]
  · simp [UpdateSyncButtonState]
  · simp [UpdateSyncButtonState]
  · simp [UpdateSyncButtonState]
  · simp [UpdateSyncButtonState]

/-- Claim C7 witness: the long-press and short-press sequences at concrete
times (held at 0 ms, still held at 10001 ms → LongPressed; released at
3000 ms → Pressed). -/
theorem C7_sync_button_witness :
    (UpdateSyncButtonState
      { initBT with syncButtonState := SyncButtonState.Held, syncButtonTimerStart := 0 }
      true 10001).syncButtonState = SyncButtonState.LongPressed ∧
    (UpdateSyncButtonState
      { initBT with syncButtonState := SyncButtonState.Held, syncButtonTimerStart := 0 }
      false 3000).syncButtonState = SyncButtonState.Pressed :=
  ⟨(C7_sync_button_state_machine initBT 0 10001 true
      { handle := 2, endpoint := HCI_EVENT_ENDPOINT, length := 64 }).2.1 (by decide),
   (C7_sync_button_state_machine initBT 0 3000 true
      { handle := 2, endpoint := HCI_EVENT_ENDPOINT, length := 64 }).2.2.2.1⟩

/-! ## C9: savestate loads in passthrough mode -/

/-- Claim C9 counterexample: loading a state that was saved while
passthrough was active (the serialized flag is true, which is what
`DoState` always writes) is not aborted — the operator is warned once but
the mode stays `MODE_READ` and the load proceeds, contradicting "the load
is refused ... and the load is aborted". -/
theorem C9_counterexample_load_not_aborted :
    (DoState initBT PWMode.read true).2.1 = PWMode.read ∧
      (DoState initBT PWMode.read true).2.1 ≠ PWMode.verify ∧
      (DoState initBT PWMode.read true).2.2 = 1 := by decide

/-- Claim C9 (amended): on every load attempt the operator is warned and
no state of the passthrough core is overwritten (the device state is
returned unchanged); the load is aborted (mode forced to `MODE_VERIFY`)
only when the incoming savestate's flag records that passthrough was
disabled when it was created — otherwise the load proceeds. -/
theorem C9_load_refusal :
    ∀ (s : BTState) (storedFlag : Bool),
      (DoState s PWMode.read storedFlag).1 = s ∧
        1 ≤ (DoState s PWMode.read storedFlag).2.2 ∧
        (DoState s PWMode.read storedFlag).2.1 =
          (if storedFlag then PWMode.read else PWMode.verify) := by
  intro s storedFlag
  cases storedFlag <;> simp [DoState]

/-! ## C5: the delete-stored-link-key command -/

/-- Claim C5, evaluated at the failing input: the store holds the
addresses 10:20:30:40:50:60 and 99:02:03:04:05:06 (wire order); the guest
issues delete-stored-link-key for the first address with the delete-all
flag CLEAR (packet `12 0C 07 | 0A 14 1E 28 32 3C | 00`).  The claim says
exactly the matching entry is removed; the code copies the 7-byte
parameter struct from the start of the packet (header included), reads
`delete_all` from packet byte 6 — the fourth address byte, 40 ≠ 0 — and
clears the entire store.  The command is still forwarded unmodified. -/
theorem C5_delete_misparse_clears_store :
    (IOCtlV
        { initBT with
            linkKeys := [([10, 20, 30, 40, 50, 60], List.replicate 16 1),
                         ([99, 2, 3, 4, 5, 6], List.replicate 16 2)] }
        (Request.ctrlMsg
          { handle := 3, bmRequestType := 0x20, bRequest := 0, wValue := 0, wIndex := 0,
            payload := [0x12, 0x0C, 0x07, 10, 20, 30, 40, 50, 60, 0] })).1.linkKeys = [] ∧
      (IOCtlV
        { initBT with
            linkKeys := [([10, 20, 30, 40, 50, 60], List.replicate 16 1),
                         ([99, 2, 3, 4, 5, 6], List.replicate 16 2)] }
        (Request.ctrlMsg
          { handle := 3, bmRequestType := 0x20, bRequest := 0, wValue := 0, wIndex := 0,
            payload := [0x12, 0x0C, 0x07, 10, 20, 30, 40, 50, 60, 0] })).2 =
        [Action.submitControl 3
          [0x20, 0, 0, 0, 0, 0, 10, 0, 0x12, 0x0C, 0x07, 10, 20, 30, 40, 50, 60, 0]] := by
  decide

/-! ## C2: read-buffer-size commands are faked -/

/-- Claim C2 (amended): a read-buffer-size control request is never
forwarded to the transport and receives no reply on its own handle — the
read-buffer-size-fake latch is set instead — and the next
interrupt-direction request *at which no sync-button event is pending*
(the state machine is neither Pressed nor LongPressed, those checks
having priority) is answered with the synthesized command-complete event
carrying the fixed buffer constants, regardless of whether the adapter is
the first-party module. -/
theorem C2_read_buffer_size_fake (s : BTState) (c : CtrlMessage) (m : IntrMessage)
    (hop : readOpcode c.payload = HCI_CMD_READ_BUFFER_SIZE)
    (hp : s.syncButtonState ≠ SyncButtonState.Pressed)
    (hl : s.syncButtonState ≠ SyncButtonState.LongPressed) :
    (IOCtlV s (Request.ctrlMsg c)).2.filterMap pendingOfAction = [] ∧
      replyActions (IOCtlV s (Request.ctrlMsg c)).2 = [] ∧
      (IOCtlV s (Request.ctrlMsg c)).1.fakeReadBufferSizeReply = true ∧
      (IOCtlV (IOCtlV s (Request.ctrlMsg c)).1 (Request.intrMsg m)).2 =
        [Action.enqueueReply m.handle fakeReadBufferSizeBytes 12] ∧
      (IOCtlV (IOCtlV s (Request.ctrlMsg c)).1 (Request.intrMsg m)).1.fakeReadBufferSizeReply
        = false := by
  by_cases hw : s.isWiiBtModule = false ∧ s.needResetKeys = true <;>
    simp [IOCtlV, IOCtlVBody, hw, hop, hp, hl]

/-- Claim C2 witness: a fresh session, read-buffer-size command on handle
1, interrupt poll on handle 2: the poll is answered with the synthesized
12-byte buffer-size reply. -/
theorem C2_read_buffer_size_witness :
    (IOCtlV (IOCtlV initBT (Request.ctrlMsg (mkCtrl 1 HCI_CMD_READ_BUFFER_SIZE))).1
        (Request.intrMsg (mkIntr 2))).2 =
      [Action.enqueueReply (mkIntr 2).handle fakeReadBufferSizeBytes 12] :=
  (C2_read_buffer_size_fake initBT (mkCtrl 1 HCI_CMD_READ_BUFFER_SIZE) (mkIntr 2)
    (by decide) (by decide) (by decide)).2.2.2.1

/-- Claim C2 counterexample: with the sync button in the Pressed state, the
interrupt-direction request that immediately follows a read-buffer-size
command is answered with the synthesized sync-button vendor event
(`FF 01 08`), not with a command-complete event carrying the buffer
constants — the claim's "the next interrupt-direction request after it"
fails as stated. -/
theorem C2_counterexample_sync_button_preempts :
    (IOCtlV (IOCtlV { initBT with syncButtonState := SyncButtonState.Pressed }
          (Request.ctrlMsg (mkCtrl 1 HCI_CMD_READ_BUFFER_SIZE))).1
        (Request.intrMsg (mkIntr 2))).2 =
      [Action.enqueueReply 2 syncPressedBytes 3] ∧
      syncPressedBytes ≠ fakeReadBufferSizeBytes ∧
      byteAt syncPressedBytes 0 ≠ HCI_EVENT_COMMAND_COMPL := by decide

/-! ## C4: the vendor pairing opcodes -/

/-- Claim C4 (amended): for a control request carrying vendor pairing
opcode 0xFC4C or 0xFC4F — when no other fake reply is pending (sync
button neither Pressed nor LongPressed and the read-buffer-size latch
clear, all of which have priority at the consuming interrupt request): on
a non-first-party adapter the command is not forwarded and gets no reply
on its own handle, the vendor latch records the exact opcode, and the
next interrupt-direction request is answered with the synthesized
command-complete event echoing that opcode; on the first-party adapter
the identical command is forwarded to the transport unmodified. -/
theorem C4_vendor_pairing_commands (s : BTState) (c : CtrlMessage) (m : IntrMessage)
    (hop : readOpcode c.payload = 0xFC4C ∨ readOpcode c.payload = 0xFC4F)
    (hp : s.syncButtonState ≠ SyncButtonState.Pressed)
    (hl : s.syncButtonState ≠ SyncButtonState.LongPressed)
    (hrb : s.fakeReadBufferSizeReply = false) :
    (s.isWiiBtModule = false →
      (IOCtlV s (Request.ctrlMsg c)).2.filterMap pendingOfAction = [] ∧
        replyActions (IOCtlV s (Request.ctrlMsg c)).2 = [] ∧
        (IOCtlV s (Request.ctrlMsg c)).1.fakeVendorCommandReply = true ∧
        (IOCtlV s (Request.ctrlMsg c)).1.fakeVendorCommandReplyOpcode = readOpcode c.payload ∧
        (IOCtlV (IOCtlV s (Request.ctrlMsg c)).1 (Request.intrMsg m)).2 =
          [Action.enqueueReply m.handle (fakeVendorCommandBytes (readOpcode c.payload)) 5] ∧
        (IOCtlV (IOCtlV s (Request.ctrlMsg c)).1 (Request.intrMsg m)).1.fakeVendorCommandReply
          = false) ∧
    (s.isWiiBtModule = true →
      (IOCtlV s (Request.ctrlMsg c)).2 =
        [Action.submitControl c.handle (controlSetup c ++ c.payload)]) := by
  constructor
  · intro hwii
    by_cases hnr : s.needResetKeys = true <;>
      rcases hop with h | h <;>
        simp [IOCtlV, IOCtlVBody, hwii, hnr, h, hp, hl, hrb,
          HCI_CMD_READ_BUFFER_SIZE, HCI_CMD_DELETE_STORED_LINK_KEY]
  · intro hwii
    rcases hop with h | h <;>
      simp [IOCtlV, IOCtlVBody, hwii, h, HCI_CMD_READ_BUFFER_SIZE, HCI_CMD_DELETE_STORED_LINK_KEY]

/-- Claim C4 witness: opcode 0xFC4C on a fresh non-first-party session is
answered by the next interrupt poll with a command-complete echoing
0xFC4C; the same command on a first-party session is forwarded verbatim. -/
theorem C4_vendor_pairing_witness :
    (IOCtlV (IOCtlV initBT (Request.ctrlMsg (mkCtrl 1 0xFC4C))).1
        (Request.intrMsg (mkIntr 2))).2 =
      [Action.enqueueReply (mkIntr 2).handle
        (fakeVendorCommandBytes (readOpcode (mkCtrl 1 0xFC4C).payload)) 5] ∧
    (IOCtlV { initBT with isWiiBtModule := true } (Request.ctrlMsg (mkCtrl 1 0xFC4C))).2 =
      [Action.submitControl (mkCtrl 1 0xFC4C).handle
        (controlSetup (mkCtrl 1 0xFC4C) ++ (mkCtrl 1 0xFC4C).payload)] :=
  ⟨((C4_vendor_pairing_commands initBT (mkCtrl 1 0xFC4C) (mkIntr 2)
      (Or.inl (by decide)) (by decide) (by decide) rfl).1 rfl).2.2.2.2.1,
   ((C4_vendor_pairing_commands { initBT with isWiiBtModule := true } (mkCtrl 1 0xFC4C)
      (mkIntr 2) (Or.inl (by decide)) (by decide) (by decide) rfl).2 rfl)⟩

/-- Claim C4 counterexample: on a non-first-party adapter with the
read-buffer-size latch already pending, the interrupt-direction request
following a 0xFC4C vendor command is answered with the buffer-size fake
(opcode field 0x1005), not with a command-complete echoing 0xFC4C — the
claim's "the next interrupt-direction request is answered ... with that
exact opcode" fails as stated. -/
theorem C4_counterexample_read_buffer_latch_preempts :
    (IOCtlV (IOCtlV { initBT with fakeReadBufferSizeReply := true }
          (Request.ctrlMsg (mkCtrl 1 0xFC4C))).1
        (Request.intrMsg (mkIntr 2))).2 =
      [Action.enqueueReply 2 fakeReadBufferSizeBytes 12] ∧
      fakeReadBufferSizeBytes ≠ fakeVendorCommandBytes 0xFC4C := by decide

/-! ## C10: the vendor latch is a single cell, not a queue -/

/-- Claim C10: two vendor pairing commands submitted on a fresh
non-first-party session before any interrupt-direction request: neither
is forwarded (no actions at all are produced for them), the single latch
remembers only the most recent opcode, the next interrupt-direction
request produces exactly one synthesized command-complete echoing that
latest opcode, and afterwards the latch is clear — the earlier command's
intended fake reply is lost. -/
theorem C10_vendor_latch_overwrite (op1 op2 : Nat)
    (h1 : op1 = 0xFC4C ∨ op1 = 0xFC4F) (h2 : op2 = 0xFC4C ∨ op2 = 0xFC4F) :
    (IOCtlV initBT (Request.ctrlMsg (mkCtrl 1 op1))).2 = [] ∧
      (IOCtlV (IOCtlV initBT (Request.ctrlMsg (mkCtrl 1 op1))).1
        (Request.ctrlMsg (mkCtrl 2 op2))).2 = [] ∧
      (IOCtlV (IOCtlV initBT (Request.ctrlMsg (mkCtrl 1 op1))).1
        (Request.ctrlMsg (mkCtrl 2 op2))).1.fakeVendorCommandReply = true ∧
      (IOCtlV (IOCtlV initBT (Request.ctrlMsg (mkCtrl 1 op1))).1
        (Request.ctrlMsg (mkCtrl 2 op2))).1.fakeVendorCommandReplyOpcode = op2 ∧
      (IOCtlV (IOCtlV (IOCtlV initBT (Request.ctrlMsg (mkCtrl 1 op1))).1
          (Request.ctrlMsg (mkCtrl 2 op2))).1 (Request.intrMsg (mkIntr 3))).2 =
        [Action.enqueueReply 3 (fakeVendorCommandBytes op2) 5] ∧
      (IOCtlV (IOCtlV (IOCtlV initBT (Request.ctrlMsg (mkCtrl 1 op1))).1
          (Request.ctrlMsg (mkCtrl 2 op2))).1
        (Request.intrMsg (mkIntr 3))).1.fakeVendorCommandReply = false := by
  rcases h1 with rfl | rfl <;> rcases h2 with rfl | rfl <;> decide

/-- Claim C10 witness: 0xFC4C then 0xFC4F — the poll's reply echoes
0xFC4F. -/
theorem C10_vendor_latch_witness :
    (IOCtlV (IOCtlV (IOCtlV initBT (Request.ctrlMsg (mkCtrl 1 0xFC4C))).1
        (Request.ctrlMsg (mkCtrl 2 0xFC4F))).1 (Request.intrMsg (mkIntr 3))).2 =
      [Action.enqueueReply 3 (fakeVendorCommandBytes 0xFC4F) 5] :=
  (C10_vendor_latch_overwrite 0xFC4C 0xFC4F (Or.inl rfl) (Or.inr rfl)).2.2.2.2.1

/-! ## C3: key resynchronization precedes the triggering request -/

/-- The request dispatch itself (after the prelude) performs no blocking
control transfer and no command-complete wait: those occur only in the
resynchronization prelude and in open/close. -/
theorem IOCtlVBody_actions_async (s : BTState) (r : Request) :
    ∀ a ∈ (IOCtlVBody s r).2,
      match a with
      | Action.controlTransferSync _ => False
      | Action.waitCommandComplete _ => False
      | _ => True := by
  cases r <;> simp only [IOCtlVBody] <;> first
  | (split_ifs <;> simp)
  | simp

/-- The polling loop makes at most `tries + fuel` attempts. -/
theorem waitLoop_le (opcode : Nat) (ev : Nat → Option (List Byte)) (fuel : Nat) :
    ∀ tries, waitLoop opcode ev tries fuel ≤ tries + fuel := by
  induction fuel with
  | zero => intro tries; simp [waitLoop]
  | succ n ih =>
    intro tries
    simp only [waitLoop]
    split
    · omega
    · exact le_trans (ih (tries + 1)) (by omega)

/-- Claim C3: with the needs-key-resync latch set, a non-first-party
adapter and a non-empty Link-Key Store, processing any guest request
first emits — strictly before every action of the request itself — the
delete-all-stored-keys command, a wait for its command-complete, the
write-stored-link-keys command built from the full store, and a wait for
its command-complete; the remainder equals the processing of the same
request with the latch cleared and contains no further synchronous
command or wait; and each wait is bounded by 100 poll attempts whatever
the adapter returns. -/
theorem C3_resync_precedes_request (s : BTState) (r : Request)
    (ev : Nat → Option (List Byte))
    (hwii : s.isWiiBtModule = false) (hnr : s.needResetKeys = true)
    (hne : s.linkKeys ≠ []) :
    (IOCtlV s r).2 =
      ([Action.controlTransferSync SendHCIDeleteLinkKeyPacket,
        Action.waitCommandComplete HCI_CMD_DELETE_STORED_LINK_KEY,
        Action.controlTransferSync (storeLinkKeyPacket s.linkKeys),
        Action.waitCommandComplete HCI_CMD_WRITE_STORED_LINK_KEY] ++
        (IOCtlV { s with needResetKeys := false } r).2) ∧
      (∀ a ∈ (IOCtlV { s with needResetKeys := false } r).2,
        match a with
        | Action.controlTransferSync _ => False
        | Action.waitCommandComplete _ => False
        | _ => True) ∧
      WaitForHCICommandComplete HCI_CMD_DELETE_STORED_LINK_KEY ev ≤ 100 ∧
      WaitForHCICommandComplete HCI_CMD_WRITE_STORED_LINK_KEY ev ≤ 100 := by
  have hie : s.linkKeys.isEmpty = false := by
    cases hL : s.linkKeys with
    | nil => exact absurd hL hne
    | cons a l => rfl
  have hbody : IOCtlV { s with needResetKeys := false } r =
      IOCtlVBody { s with needResetKeys := false } r := by
    simp [IOCtlV]
  refine ⟨?_, ?_, ?_, ?_⟩
  · simp [IOCtlV, hwii, hnr, resyncActions, hie, hbody]
  · rw [hbody]
    exact IOCtlVBody_actions_async _ r
  · exact waitLoop_le _ ev 100 0
  · exact waitLoop_le _ ev 100 0

/-- Claim C3 witness: latch set, one stored key, an interrupt request:
the four resynchronization actions come first, then the request's own
transport submission. -/
theorem C3_resync_witness :
    (IOCtlV
        { initBT with
            needResetKeys := true
            linkKeys := [([1, 2, 3, 4, 5, 6], List.replicate 16 7)] }
        (Request.intrMsg (mkIntr 1))).2 =
      ([Action.controlTransferSync SendHCIDeleteLinkKeyPacket,
        Action.waitCommandComplete HCI_CMD_DELETE_STORED_LINK_KEY,
        Action.controlTransferSync
          (storeLinkKeyPacket [([1, 2, 3, 4, 5, 6], List.replicate 16 7)]),
        Action.waitCommandComplete HCI_CMD_WRITE_STORED_LINK_KEY] ++
        (IOCtlV
          { initBT with
              needResetKeys := false
              linkKeys := [([1, 2, 3, 4, 5, 6], List.replicate 16 7)] }
          (Request.intrMsg (mkIntr 1))).2) :=
  (C3_resync_precedes_request
    { initBT with
        needResetKeys := true
        linkKeys := [([1, 2, 3, 4, 5, 6], List.replicate 16 7)] }
    (Request.intrMsg (mkIntr 1)) (fun _ => none) rfl rfl (by decide)).1

/-! ## Order lemmas for the lexicographic address comparison -/

theorem addrLt_irrefl (a : List Byte) : addrLt a a = false := by
  induction a with
  | nil => rfl
  | cons x t ih => simp [addrLt, ih]

theorem addrLt_asymm : ∀ a b : List Byte, addrLt a b = true → addrLt b a = false := by
  intro a
  induction a with
  | nil => intro b hb; cases b <;> simp_all [addrLt]
  | cons x t ih =>
    intro b hb
    cases b with
    | nil => simp_all [addrLt]
    | cons y u =>
      simp only [addrLt] at hb ⊢
      rcases Nat.lt_trichotomy x y with hxy | hxy | hxy
      · simp [hxy, Nat.not_lt.mpr (Nat.le_of_lt hxy), Nat.lt_irrefl]
      · subst hxy
        simp only [Nat.lt_irrefl, if_false] at hb ⊢
        exact ih u hb
      · simp [hxy, Nat.not_lt.mpr (Nat.le_of_lt hxy)] at hb

theorem addrLt_ne {a b : List Byte} (h : addrLt a b = true) : a ≠ b := by
  intro hab
  subst hab
  rw [addrLt_irrefl] at h
  exact Bool.false_ne_true h

theorem addrLt_trans : ∀ a b c : List Byte,
    addrLt a b = true → addrLt b c = true → addrLt a c = true := by
  intro a
  induction a with
  | nil =>
    intro b c hab hbc
    cases b <;> cases c <;> simp_all [addrLt]
  | cons x t ih =>
    intro b c hab hbc
    cases b with
    | nil => simp_all [addrLt]
    | cons y u =>
      cases c with
      | nil => simp_all [addrLt]
      | cons z v =>
        simp only [addrLt] at hab hbc ⊢
        by_cases hxy : x < y
        · by_cases hyz : y < z
          · simp [Nat.lt_trans hxy hyz]
          · by_cases hzy : z < y
            · simp [hyz, hzy] at hbc
            · have hyz2 : y = z := Nat.le_antisymm (Nat.not_lt.mp hzy) (Nat.not_lt.mp hyz)
              subst hyz2
              simp [hxy]
        · by_cases hyx : y < x
          · simp [hxy, hyx] at hab
          · have hxy2 : x = y := Nat.le_antisymm (Nat.not_lt.mp hyx) (Nat.not_lt.mp hxy)
            subst hxy2
            by_cases hyz : x < z
            · simp [hyz]
            · by_cases hzy : z < x
              · simp [hyz, hzy] at hbc
              · have hxz : x = z := Nat.le_antisymm (Nat.not_lt.mp hzy) (Nat.not_lt.mp hyz)
                subst hxz
                simp only [Nat.lt_irrefl, if_false] at hab hbc ⊢
                exact ih u v hab hbc

theorem addrLt_total_of_length {a b : List Byte} (hlen : a.length = b.length)
    (hab : addrLt a b = false) (hba : addrLt b a = false) : a = b := by
  induction a generalizing b with
  | nil => cases b <;> simp_all [addrLt]
  | cons x t ih =>
    cases b with
    | nil => simp_all [addrLt]
    | cons y u =>
      simp only [addrLt] at hab hba
      by_cases hxy : x < y
      · simp [hxy] at hab
      · by_cases hyx : y < x
        · simp [hyx, Nat.not_lt.mpr (Nat.le_of_lt hyx)] at hba
        · have hx : x = y := Nat.le_antisymm (Nat.not_lt.mp hyx) (Nat.not_lt.mp hxy)
          subst hx
          simp only [Nat.lt_irrefl, if_false] at hab hba
          have hlen2 : t.length = u.length := by
            simpa using hlen
          have ht : t = u := ih hlen2 hab hba
          rw [ht]

/-! ## Store (`std::map`) lemmas -/

theorem mem_mapInsert : ∀ (m : LinkKeyMap) (a : BtAddr) (k : LinkKey) (x : BtAddr × LinkKey),
    x ∈ mapInsert m a k → x = (a, k) ∨ x ∈ m := by
  intro m a k x
  induction m with
  | nil => simp [mapInsert]
  | cons e t ih =>
    simp only [mapInsert]
    split_ifs with h1 h2 <;> intro hx
    · rcases List.mem_cons.mp hx with h | h
      · exact Or.inl h
      · exact Or.inr h
    · rcases List.mem_cons.mp hx with h | h
      · exact Or.inl h
      · exact Or.inr (List.mem_cons_of_mem _ h)
    · rcases List.mem_cons.mp hx with h | h
      · refine Or.inr ?_
        rw [h]
        exact List.mem_cons_self e t
      · rcases ih h with h2 | h2
        · exact Or.inl h2
        · exact Or.inr (List.mem_cons_of_mem _ h2)

theorem mapInsert_append_of_gt :
    ∀ (m : LinkKeyMap) (a : BtAddr) (k : LinkKey),
      (∀ e ∈ m, addrLt e.1 a = true) → mapInsert m a k = m ++ [(a, k)] := by
  intro m a k
  induction m with
  | nil => intro _; rfl
  | cons e t ih =>
    intro hlt
    have he : addrLt e.1 a = true := hlt e (List.mem_cons_self e t)
    have h1 : addrLt a e.1 = false := addrLt_asymm _ _ he
    have h2 : a ≠ e.1 := fun hh => addrLt_ne he hh.symm
    simp only [mapInsert, h1, Bool.false_eq_true, if_false]
    rw [if_neg h2, ih (fun x hx => hlt x (List.mem_cons_of_mem e hx))]
    simp

theorem mapErase_sublist : ∀ (m : LinkKeyMap) (a : BtAddr), (mapErase m a).Sublist m := by
  intro m a
  induction m with
  | nil => simp [mapErase]
  | cons e t ih =>
    simp only [mapErase]
    split_ifs with h
    · exact List.sublist_cons_self e t
    · exact List.Sublist.cons₂ e ih

theorem mapInsert_wf {m : LinkKeyMap} {a : BtAddr} {k : LinkKey}
    (hwf : mapWF m) (hval : validEntries m) (ha : validAddr a) :
    mapWF (mapInsert m a k) := by
  induction m with
  | nil => simp [mapInsert, mapWF]
  | cons e t ih =>
    have hwt : mapWF t := (List.pairwise_cons.mp hwf).2
    have hvt : validEntries t := fun x hx => hval x (List.mem_cons_of_mem e hx)
    have hlt : ∀ x ∈ t, addrLt e.1 x.1 = true := (List.pairwise_cons.mp hwf).1
    simp only [mapInsert]
    split_ifs with h1 h2
    · -- (a,k) :: e :: t
      refine List.pairwise_cons.mpr ⟨?_, hwf⟩
      intro x hx
      rcases List.mem_cons.mp hx with hx | hx
      · rw [hx]; exact h1
      · exact addrLt_trans _ _ _ h1 (hlt x hx)
    · -- a = e.1 : replace the head
      refine List.pairwise_cons.mpr ⟨?_, hwt⟩
      intro x hx
      rw [h2]
      exact hlt x hx
    · -- recurse
      refine List.pairwise_cons.mpr ⟨?_, ih hwt hvt⟩
      intro x hx
      rcases mem_mapInsert _ _ _ _ hx with hx | hx
      · rw [hx]
        have hea : validAddr e.1 := (hval e (List.mem_cons_self e t)).1
        have hlen : e.1.length = a.length := by rw [hea.1, ha.1]
        by_cases hba : addrLt e.1 a = true
        · exact hba
        · have hba2 : addrLt e.1 a = false := Bool.eq_false_iff.mpr hba
          have h1b : addrLt a e.1 = false := Bool.eq_false_iff.mpr h1
          exact absurd (addrLt_total_of_length hlen hba2 h1b).symm h2
      · exact hlt x hx

theorem mapInsert_valid {m : LinkKeyMap} {a : BtAddr} {k : LinkKey}
    (hval : validEntries m) (ha : validAddr a) (hk : validKey k) :
    validEntries (mapInsert m a k) := by
  intro x hx
  rcases mem_mapInsert _ _ _ _ hx with hx | hx
  · rw [hx]; exact ⟨ha, hk⟩
  · exact hval x hx

theorem mapErase_wf {m : LinkKeyMap} {a : BtAddr} (hwf : mapWF m) : mapWF (mapErase m a) :=
  List.Pairwise.sublist (mapErase_sublist m a) hwf

theorem mapErase_valid {m : LinkKeyMap} {a : BtAddr} (hval : validEntries m) :
    validEntries (mapErase m a) :=
  fun x hx => hval x ((mapErase_sublist m a).subset hx)

/-- Any store reachable from the empty store by valid operations is a
well-formed `std::map` with wire-sized entries. -/
theorem applyOps_wf_valid (ops : List LinkKeyOp) (hops : ∀ op ∈ ops, validOp op) :
    mapWF (applyOps [] ops) ∧ validEntries (applyOps [] ops) := by
  suffices h : ∀ (m : LinkKeyMap), mapWF m → validEntries m →
      mapWF (applyOps m ops) ∧ validEntries (applyOps m ops) by
    exact h [] (by simp [mapWF]) (by intro e he; cases he)
  induction ops with
  | nil => intro m hwf hval; exact ⟨hwf, hval⟩
  | cons op t ih =>
    intro m hwf hval
    have hopv : validOp op := hops op (List.mem_cons_self op t)
    have ht : ∀ o ∈ t, validOp o := fun o ho => hops o (List.mem_cons_of_mem op ho)
    have step : mapWF (applyOp m op) ∧ validEntries (applyOp m op) := by
      cases op with
      | upsert a k =>
        exact ⟨mapInsert_wf hwf hval hopv.1, mapInsert_valid hval hopv.1 hopv.2⟩
      | deleteOne a => exact ⟨mapErase_wf hwf, mapErase_valid hval⟩
      | deleteAll => exact ⟨by simp [mapWF, applyOp], by intro e he; cases he⟩
    have := ih ht (applyOp m op) step.1 step.2
    simpa [applyOps] using this

/-! ## Hex digit lemmas -/

theorem hexDigit_facts : ∀ n, n < 16 →
    hexVal (hexDigit n) = n ∧ isHexDigit (hexDigit n) = true ∧
      hexDigit n ≠ ',' ∧ hexDigit n ≠ ':' ∧ hexDigit n ≠ '-' ∧ hexDigit n ≠ '=' := by
  decide

theorem byte_div16_lt {b : Byte} (hb : b < 256) : b / 16 < 16 :=
  Nat.div_lt_of_lt_mul (show b < 16 * 16 from hb)

theorem byte_mod16_lt (b : Byte) : b % 16 < 16 :=
  Nat.mod_lt _ (by decide)

theorem byteToHexPair_mem {b : Byte} (hb : b < 256) :
    ∀ c ∈ byteToHexPair b,
      isHexDigit c = true ∧ c ≠ ',' ∧ c ≠ ':' ∧ c ≠ '-' ∧ c ≠ '=' := by
  intro c hc
  have h1 := hexDigit_facts (b / 16) (byte_div16_lt hb)
  have h2 := hexDigit_facts (b % 16) (byte_mod16_lt b)
  rcases List.mem_cons.mp hc with h | h
  · rw [h]; exact ⟨h1.2.1, h1.2.2.1, h1.2.2.2.1, h1.2.2.2.2.1, h1.2.2.2.2.2⟩
  · have : c = hexDigit (b % 16) := by simpa using h
    rw [this]
    exact ⟨h2.2.1, h2.2.2.1, h2.2.2.2.1, h2.2.2.2.2.1, h2.2.2.2.2.2⟩

theorem parseHexGroup_pair {c1 c2 : Char} (h1 : isHexDigit c1 = true)
    (h2 : isHexDigit c2 = true) :
    parseHexGroup [c1, c2] = 16 * hexVal c1 + hexVal c2 := by
  simp [parseHexGroup, List.takeWhile, h1, h2, List.foldl]

theorem parseHexGroup_byteToHexPair {b : Byte} (hb : b < 256) :
    parseHexGroup (byteToHexPair b) = b := by
  have h1 := hexDigit_facts (b / 16) (byte_div16_lt hb)
  have h2 := hexDigit_facts (b % 16) (byte_mod16_lt b)
  show parseHexGroup [hexDigit (b / 16), hexDigit (b % 16)] = b
  rw [parseHexGroup_pair h1.2.1 h2.2.1, h1.1, h2.1]
  exact Nat.div_add_mod b 16

theorem macGroupVal_byteToHexPair {b : Byte} (hb : b < 256) :
    macGroupVal (byteToHexPair b) = b := by
  have h1 := hexDigit_facts (b / 16) (byte_div16_lt hb)
  have h2 := hexDigit_facts (b % 16) (byte_mod16_lt b)
  show macGroupVal [hexDigit (b / 16), hexDigit (b % 16)] = b
  rw [macGroupVal, h1.1, h2.1]
  exact Nat.div_add_mod b 16

/-! ## Splitting / joining lemmas -/

theorem splitOnP_sepFree {p : Char → Bool} :
    ∀ {xs : List Char}, (∀ c ∈ xs, p c = false) → splitOnP p xs = [xs] := by
  intro xs
  induction xs with
  | nil => intro _; rfl
  | cons c rest ih =>
    intro h
    have hc : p c = false := h c (List.mem_cons_self _ _)
    have hr := ih (fun d hd => h d (List.mem_cons_of_mem _ hd))
    simp [splitOnP, hc, hr]

theorem splitOnP_append {p : Char → Bool} {sep : Char} (hsep : p sep = true) :
    ∀ {xs : List Char} (rest : List Char), (∀ c ∈ xs, p c = false) →
      splitOnP p (xs ++ sep :: rest) = xs :: splitOnP p rest := by
  intro xs
  induction xs with
  | nil => intro rest _; simp [splitOnP, hsep]
  | cons c t ih =>
    intro rest h
    have hc : p c = false := h c (List.mem_cons_self _ _)
    have hr := ih rest (fun d hd => h d (List.mem_cons_of_mem _ hd))
    simp only [List.cons_append, splitOnP, hc, List.append_eq, Bool.false_eq_true, if_false]
    rw [hr]

theorem splitOnP_joinSep {p : Char → Bool} {sep : Char} (hsep : p sep = true) :
    ∀ (parts : List (List Char)), parts ≠ [] →
      (∀ part ∈ parts, ∀ c ∈ part, p c = false) →
      splitOnP p (joinSep sep parts) = parts := by
  intro parts
  induction parts with
  | nil => intro h _; exact absurd rfl h
  | cons q ps ih =>
    intro _ hfree
    cases ps with
    | nil =>
      show splitOnP p (joinSep sep [q]) = [q]
      rw [show joinSep sep [q] = q from rfl]
      exact splitOnP_sepFree (hfree q (List.mem_cons_self _ _))
    | cons q2 ps2 =>
      rw [show joinSep sep (q :: q2 :: ps2) = q ++ sep :: joinSep sep (q2 :: ps2) from rfl]
      rw [splitOnP_append hsep _ (hfree q (List.mem_cons_self _ _))]
      rw [ih (by simp) (fun part hp c hc => hfree part (List.mem_cons_of_mem _ hp) c hc)]

theorem mem_joinSep {sep : Char} :
    ∀ {parts : List (List Char)} {c : Char},
      c ∈ joinSep sep parts → c = sep ∨ ∃ part ∈ parts, c ∈ part := by
  intro parts
  induction parts with
  | nil => intro c hc; cases hc
  | cons q ps ih =>
    intro c hc
    cases ps with
    | nil =>
      rw [show joinSep sep [q] = q from rfl] at hc
      exact Or.inr ⟨q, List.mem_cons_self _ _, hc⟩
    | cons q2 ps2 =>
      rw [show joinSep sep (q :: q2 :: ps2) = q ++ sep :: joinSep sep (q2 :: ps2) from rfl] at hc
      rcases List.mem_append.mp hc with h | h
      · exact Or.inr ⟨q, List.mem_cons_self _ _, h⟩
      · rcases List.mem_cons.mp h with h | h
        · exact Or.inl h
        · rcases ih h with h | ⟨part, hp, hcp⟩
          · exact Or.inl h
          · exact Or.inr ⟨part, List.mem_cons_of_mem _ hp, hcp⟩

theorem takeWhile_dropWhile_append {q : Char → Bool} :
    ∀ (xs : List Char) (y : Char) (rest : List Char),
      (∀ c ∈ xs, q c = true) → q y = false →
      (xs ++ y :: rest).takeWhile q = xs ∧ (xs ++ y :: rest).dropWhile q = y :: rest := by
  intro xs
  induction xs with
  | nil =>
    intro y rest _ hy
    simp [List.takeWhile, List.dropWhile, hy]
  | cons c t ih =>
    intro y rest h hy
    have hc : q c = true := h c (List.mem_cons_self _ _)
    have hr := ih y rest (fun d hd => h d (List.mem_cons_of_mem _ hd)) hy
    simp only [List.cons_append, List.takeWhile, List.dropWhile, hc, List.append_eq]
    exact ⟨by rw [hr.1], hr.2⟩

/-! ## Address serialization round-trip -/

theorem validAddr_reverse {a : BtAddr} (h : validAddr a) : validAddr a.reverse :=
  ⟨by simp [h.1], fun b hb => h.2 b (List.mem_reverse.mp hb)⟩

theorem StringToMacAddress_roundtrip {a : List Byte} (ha : validAddr a) :
    StringToMacAddress (MacAddressToString a) = some a := by
  have hane : a ≠ [] := by
    intro h
    rw [h] at ha
    exact absurd ha.1 (by decide)
  have hparts :
      splitOnP (fun c => c = ':' ∨ c = '-') (joinSep ':' (a.map byteToHexPair)) =
        a.map byteToHexPair := by
    apply splitOnP_joinSep (by simp)
    · simpa using hane
    · intro part hp c hc
      obtain ⟨b, hb, rfl⟩ := List.mem_map.mp hp
      have hf := byteToHexPair_mem (ha.2 b hb) c hc
      simp only [decide_eq_false_iff_not]
      rintro (h | h)
      · exact hf.2.2.1 h
      · exact hf.2.2.2.1 h
  have hguard : (a.map byteToHexPair).length = 6 ∧
      ∀ g ∈ a.map byteToHexPair, g.length = 2 ∧ g.all isHexDigit := by
    constructor
    · simp [ha.1]
    · intro g hg
      obtain ⟨b, hb, rfl⟩ := List.mem_map.mp hg
      refine ⟨rfl, ?_⟩
      rw [List.all_eq_true]
      intro c hc
      exact (byteToHexPair_mem (ha.2 b hb) c hc).1
  rw [StringToMacAddress, MacAddressToString, hparts, if_pos hguard]
  congr 1
  rw [List.map_map]
  have hid : ∀ b ∈ a, (macGroupVal ∘ byteToHexPair) b = b := by
    intro b hb
    exact macGroupVal_byteToHexPair (ha.2 b hb)
  rw [List.map_congr_left hid]
  simp

/-! ## Key text round-trip -/

theorem hexGroups_flatMap : ∀ (k : List Byte),
    hexGroups (k.flatMap byteToHexPair) = k.map byteToHexPair := by
  intro k
  induction k with
  | nil => rfl
  | cons b t ih =>
    show hexGroups (byteToHexPair b ++ t.flatMap byteToHexPair) = byteToHexPair b :: t.map byteToHexPair
    rw [show byteToHexPair b ++ t.flatMap byteToHexPair =
      hexDigit (b / 16) :: hexDigit (b % 16) :: t.flatMap byteToHexPair from rfl]
    rw [show hexGroups (hexDigit (b / 16) :: hexDigit (b % 16) :: t.flatMap byteToHexPair) =
      [hexDigit (b / 16), hexDigit (b % 16)] :: hexGroups (t.flatMap byteToHexPair) from rfl]
    rw [ih]
    rfl

theorem keyFromHex_roundtrip {k : LinkKey} (hk : validKey k) :
    keyFromHex (k.flatMap byteToHexPair) = k := by
  rw [keyFromHex, hexGroups_flatMap, List.map_map]
  have hmap : ∀ b ∈ k, (parseHexGroup ∘ byteToHexPair) b = b := by
    intro b hb
    exact parseHexGroup_byteToHexPair (hk.2 b hb)
  have hmapid : List.map (parseHexGroup ∘ byteToHexPair) k = k := by
    rw [List.map_congr_left hmap]
    simp
  rw [hmapid]
  have h16 : k.take 16 = k := by
    rw [← hk.1, List.take_length]
  rw [h16]
  rw [List.take_left' hk.1]

/-! ## Entry round-trip -/

theorem saveLinkKeysEntry_parts {e : BtAddr × LinkKey}
    (ha : validAddr e.1) (hk : validKey e.2) :
    ∀ c ∈ saveLinkKeysEntry e, c = '=' ∨ isHexDigit c = true ∨ c = ':' := by
  intro c hc
  rw [saveLinkKeysEntry] at hc
  rcases List.mem_append.mp hc with h | h
  · rcases mem_joinSep h with h | ⟨part, hp, hcp⟩
    · exact Or.inr (Or.inr h)
    · obtain ⟨b, hb, rfl⟩ := List.mem_map.mp hp
      have hb256 : b < 256 := (validAddr_reverse ha).2 b hb
      exact Or.inr (Or.inl (byteToHexPair_mem hb256 c hcp).1)
  · rcases List.mem_cons.mp h with h | h
    · exact Or.inl h
    · obtain ⟨b, hb, hcb⟩ := List.mem_flatMap.mp h
      exact Or.inr (Or.inl (byteToHexPair_mem (hk.2 b hb) c hcb).1)

theorem hexDigit_not_special : ∀ c : Char, isHexDigit c = true →
    c ≠ ',' ∧ c ≠ '=' ∧ c ≠ ':' := by
  intro c h
  rw [isHexDigit] at h
  refine ⟨?_, ?_, ?_⟩ <;> (intro hc; subst hc; exact absurd h (by decide))

theorem saveLinkKeysEntry_no_comma {e : BtAddr × LinkKey}
    (ha : validAddr e.1) (hk : validKey e.2) :
    ∀ c ∈ saveLinkKeysEntry e, ¬(c = ',') := by
  intro c hc h
  rcases saveLinkKeysEntry_parts ha hk c hc with h1 | h1 | h1
  · subst h; exact absurd h1 (by decide)
  · exact (hexDigit_not_special c h1).1 h
  · subst h; exact absurd h1 (by decide)

theorem mac_text_no_eq {a : BtAddr} (ha : validAddr a) :
    ∀ c ∈ MacAddressToString a, (¬(c = '=') : Bool) = true := by
  intro c hc
  rw [MacAddressToString] at hc
  have : c = ':' ∨ isHexDigit c = true := by
    rcases mem_joinSep hc with h | ⟨part, hp, hcp⟩
    · exact Or.inl h
    · obtain ⟨b, hb, rfl⟩ := List.mem_map.mp hp
      exact Or.inr (byteToHexPair_mem (ha.2 b hb) c hcp).1
  rcases this with h | h
  · subst h; decide
  · simpa using (hexDigit_not_special c h).2.1

theorem loadLinkKeysEntry_save {m : LinkKeyMap} {e : BtAddr × LinkKey}
    (ha : validAddr e.1) (hk : validKey e.2) :
    loadLinkKeysEntry m (saveLinkKeysEntry e) = mapInsert m e.1 e.2 := by
  obtain ⟨a, k⟩ := e
  have harev : validAddr a.reverse := validAddr_reverse ha
  have hmem : '=' ∈ saveLinkKeysEntry (a, k) := by
    rw [saveLinkKeysEntry]
    exact List.mem_append.mpr (Or.inr (List.mem_cons_self _ _))
  have hcond : (decide ('=' ∈ saveLinkKeysEntry (a, k))) = true := decide_eq_true hmem
  have htw := takeWhile_dropWhile_append (q := fun c => ¬(c = '='))
    (MacAddressToString a.reverse) '=' (k.flatMap byteToHexPair)
    (mac_text_no_eq harev) (by simp)
  rw [loadLinkKeysEntry]
  rw [saveLinkKeysEntry] at hcond ⊢
  simp only [hcond, Bool.true_eq_false, if_false]
  rw [htw.1, htw.2]
  rw [List.tail_cons]
  rw [StringToMacAddress_roundtrip harev]
  rw [Option.getD_some]
  rw [List.reverse_reverse]
  rw [keyFromHex_roundtrip hk]

/-! ## Store serialization round-trip -/

theorem SaveLinkKeys_joinSep : ∀ (m : LinkKeyMap),
    SaveLinkKeys m = joinSep ',' (m.map saveLinkKeysEntry) := by
  intro m
  induction m with
  | nil => rfl
  | cons e t ih =>
    cases t with
    | nil =>
      show (saveLinkKeysEntry e ++ [','] ++ []).dropLast = saveLinkKeysEntry e
      rw [List.append_nil]
      exact List.dropLast_concat
    | cons f u =>
      show (saveLinkKeysEntry e ++ [','] ++ ((f :: u).flatMap
        (fun x => saveLinkKeysEntry x ++ [',']))).dropLast =
        saveLinkKeysEntry e ++ ',' :: joinSep ',' ((f :: u).map saveLinkKeysEntry)
      have hne : ((f :: u).flatMap (fun x => saveLinkKeysEntry x ++ [','])) ≠ [] := by
        simp [List.flatMap_cons]
      rw [List.dropLast_append_of_ne_nil _ hne]
      have ht : ((f :: u).flatMap (fun x => saveLinkKeysEntry x ++ [','])).dropLast =
          joinSep ',' ((f :: u).map saveLinkKeysEntry) := ih
      rw [ht]
      simp

theorem saveLinkKeysEntry_ne_nil (e : BtAddr × LinkKey) : saveLinkKeysEntry e ≠ [] := by
  rw [saveLinkKeysEntry]
  simp

theorem foldl_load_save : ∀ (m acc : LinkKeyMap), validEntries m → mapWF m →
    (∀ e ∈ m, ∀ x ∈ acc, addrLt x.1 e.1 = true) →
    List.foldl loadLinkKeysEntry acc (m.map saveLinkKeysEntry) = acc ++ m := by
  intro m
  induction m with
  | nil => intro acc _ _ _; simp
  | cons e t ih =>
    intro acc hval hwf hord
    have he := hval e (List.mem_cons_self _ _)
    rw [List.map_cons, List.foldl_cons]
    rw [loadLinkKeysEntry_save he.1 he.2]
    rw [mapInsert_append_of_gt acc e.1 e.2 (hord e (List.mem_cons_self _ _))]
    rw [ih (acc ++ [e]) (fun x hx => hval x (List.mem_cons_of_mem _ hx))
      (List.pairwise_cons.mp hwf).2 ?ord]
    · simp
    case ord =>
      intro f hf x hx
      rcases List.mem_append.mp hx with hx | hx
      · exact hord f (List.mem_cons_of_mem _ hf) x hx
      · have : x = e := by simpa using hx
        rw [this]
        exact (List.pairwise_cons.mp hwf).1 f hf

/-- `LoadLinkKeys ∘ SaveLinkKeys` is the identity on well-formed stores. -/
theorem LoadLinkKeys_SaveLinkKeys {m : LinkKeyMap} (hwf : mapWF m) (hval : validEntries m) :
    LoadLinkKeys (SaveLinkKeys m) [] = m := by
  cases m with
  | nil => rfl
  | cons e t =>
    have hsave := SaveLinkKeys_joinSep (e :: t)
    have hne : joinSep ',' ((e :: t).map saveLinkKeysEntry) ≠ [] := by
      cases hu : (t.map saveLinkKeysEntry) with
      | nil =>
        rw [List.map_cons, hu]
        exact saveLinkKeysEntry_ne_nil e
      | cons g gs =>
        rw [List.map_cons, hu]
        rw [show joinSep ',' (saveLinkKeysEntry e :: g :: gs) =
          saveLinkKeysEntry e ++ ',' :: joinSep ',' (g :: gs) from rfl]
        simp
    have hie : (joinSep ',' ((e :: t).map saveLinkKeysEntry)).isEmpty = false := by
      cases hj : joinSep ',' ((e :: t).map saveLinkKeysEntry) with
      | nil => exact absurd hj hne
      | cons c cs => rfl
    rw [LoadLinkKeys, hsave, hie]
    simp only [Bool.false_eq_true, if_false]
    rw [splitOnP_joinSep (by simp) _ (by simp) ?free]
    · exact foldl_load_save (e :: t) [] hval hwf (by intro f _ x hx; cases hx)
    case free =>
      intro part hp c hc
      obtain ⟨f, hf, rfl⟩ := List.mem_map.mp hp
      have hfv := hval f hf
      simp only [decide_eq_false_iff_not]
      exact saveLinkKeysEntry_no_comma hfv.1 hfv.2 c hc

/-! ## C6: the Load/Save round-trip -/

/-- Claim C6: for every Link-Key Store reachable by any sequence of valid
upsert / delete-one / delete-all operations, serializing the store and
parsing the text back yields a mapping equal to the original as a set of
address-to-key pairs. -/
theorem C6_load_save_roundtrip (ops : List LinkKeyOp) (hops : ∀ op ∈ ops, validOp op) :
    ∀ (a : BtAddr) (k : LinkKey),
      ((a, k) ∈ LoadLinkKeys (SaveLinkKeys (applyOps [] ops)) []) ↔
        (a, k) ∈ applyOps [] ops := by
  obtain ⟨hwf, hval⟩ := applyOps_wf_valid ops hops
  rw [LoadLinkKeys_SaveLinkKeys hwf hval]
  intro a k
  exact Iff.rfl

/-- Claim C6 witness: a concrete operation sequence (two upserts, a
delete-one, an upsert, a delete-all survivor set) round-trips. -/
theorem C6_load_save_witness :
    (([2, 2, 2, 2, 2, 2], List.replicate 16 3) ∈
        LoadLinkKeys (SaveLinkKeys (applyOps []
          [LinkKeyOp.upsert [1, 2, 3, 4, 5, 6] (List.replicate 16 9),
           LinkKeyOp.upsert [9, 8, 7, 6, 5, 4] (List.replicate 16 2),
           LinkKeyOp.deleteOne [1, 2, 3, 4, 5, 6],
           LinkKeyOp.upsert [2, 2, 2, 2, 2, 2] (List.replicate 16 3)])) []) ↔
      (([2, 2, 2, 2, 2, 2], List.replicate 16 3) ∈ applyOps []
          [LinkKeyOp.upsert [1, 2, 3, 4, 5, 6] (List.replicate 16 9),
           LinkKeyOp.upsert [9, 8, 7, 6, 5, 4] (List.replicate 16 2),
           LinkKeyOp.deleteOne [1, 2, 3, 4, 5, 6],
           LinkKeyOp.upsert [2, 2, 2, 2, 2, 2] (List.replicate 16 3)]) :=
  C6_load_save_roundtrip _ (by decide) [2, 2, 2, 2, 2, 2] (List.replicate 16 3)

/-! ## C8: malformed persisted entries -/

/-- Claim C8 counterexample: the entry `00:00:00:00:00:01=ab` has a
malformed key (only one byte of hex instead of 16); the claim says it is
skipped without inserting any partially-decoded key, but `LoadLinkKeys`
inserts it: the store gains the address with a key whose first byte is
0xAB and whose remaining 15 bytes were never written (the C++ array is
uninitialized there, modelled as 0). -/
theorem C8_counterexample_partial_key_inserted :
    LoadLinkKeys (MacAddressToString [0, 0, 0, 0, 0, 1] ++ '=' :: ['a', 'b']) [] =
      [([1, 0, 0, 0, 0, 0], 0xab :: List.replicate 15 0)] := by decide

/-- Claim C8 (amended): during load, a piece with no `=` separator is
skipped without touching the store, and a well-formed entry is still
loaded even when it shares the text with such a malformed piece; but a
piece containing `=` is always inserted — the key is decoded two hex
digits at a time as far as the text allows, so short or corrupt keys
produce partially-decoded entries rather than being skipped. -/
theorem C8_malformed_entries (a : BtAddr) (k : LinkKey) (junk : List Char)
    (ha : validAddr a) (hk : validKey k)
    (hcomma : ∀ c ∈ junk, ¬(c = ',')) (heq : ∀ c ∈ junk, ¬(c = '=')) :
    LoadLinkKeys (junk ++ ',' :: saveLinkKeysEntry (a, k)) [] = [(a, k)] ∧
      (∀ (p : List Char) (m : LinkKeyMap), '=' ∉ p → loadLinkKeysEntry m p = m) := by
  constructor
  · have hne : junk ++ ',' :: saveLinkKeysEntry (a, k) ≠ [] := by simp
    have hie : (junk ++ ',' :: saveLinkKeysEntry (a, k)).isEmpty = false := by
      cases hj : junk ++ ',' :: saveLinkKeysEntry (a, k) with
      | nil => exact absurd hj hne
      | cons c cs => rfl
    rw [LoadLinkKeys, hie]
    simp only [Bool.false_eq_true, if_false]
    rw [splitOnP_append (by simp) _ (fun c hc => by
      simp only [decide_eq_false_iff_not]; exact hcomma c hc)]
    rw [splitOnP_sepFree (fun c hc => by
      simp only [decide_eq_false_iff_not]
      exact saveLinkKeysEntry_no_comma (e := (a, k)) ha hk c hc)]
    rw [List.foldl_cons, List.foldl_cons, List.foldl_nil]
    have hjunk : loadLinkKeysEntry [] junk = [] := by
      rw [loadLinkKeysEntry]
      have : (decide ('=' ∈ junk)) = false := by
        simp only [decide_eq_false_iff_not]
        intro hmem
        exact heq '=' hmem rfl
      rw [this]
      simp
    rw [hjunk]
    rw [loadLinkKeysEntry_save (e := (a, k)) ha hk]
    rfl
  · intro p m hp
    rw [loadLinkKeysEntry]
    have : (decide ('=' ∈ p)) = false := by
      simp only [decide_eq_false_iff_not]
      exact hp
    rw [this]
    simp

/-- Claim C8 witness: the junk piece `x` next to a well-formed entry —
the junk is skipped and the entry is loaded. -/
theorem C8_malformed_entries_witness :
    LoadLinkKeys (['x'] ++ ',' :: saveLinkKeysEntry ([1, 2, 3, 4, 5, 6],
      List.replicate 16 5)) [] = [([1, 2, 3, 4, 5, 6], List.replicate 16 5)] :=
  (C8_malformed_entries [1, 2, 3, 4, 5, 6] (List.replicate 16 5) ['x']
    (by decide) (by decide) (by decide) (by decide)).1

/-! ## C1: request/reply accounting -/

/-- Per-dispatch obligation (dispatch body): for each handle, the replies
enqueued plus the transfers submitted total exactly one for the request's
own handle — except on the latch paths, which produce neither. -/
theorem IOCtlVBody_obligation (s : BTState) (r : Request) (h : Nat) :
    ((IOCtlVBody s r).2.filterMap replyOfAction).countP (fun x => x.1 = h) +
      ((IOCtlVBody s r).2.filterMap pendingOfAction).countP (fun p => p.handle = h) =
      (if latchedRequest s.isWiiBtModule r = false ∧ r.handle = h then 1 else 0) := by
  cases r with
  | ctrlMsg c =>
    simp only [IOCtlVBody, latchedRequest, Request.handle]
    split_ifs with h1 h2 <;>
      simp_all [replyOfAction, pendingOfAction, List.countP_cons]
  | blkMsg m =>
    simp [IOCtlVBody, latchedRequest, Request.handle, replyOfAction, pendingOfAction,
      List.countP_cons]
  | intrMsg m =>
    simp only [IOCtlVBody, latchedRequest, Request.handle]
    split_ifs with h1 h2 h3 h4 <;>
      simp_all [replyOfAction, pendingOfAction, List.countP_cons]

/-- Per-dispatch obligation, with the resynchronization prelude. -/
theorem IOCtlV_obligation (s : BTState) (r : Request) (h : Nat) :
    ((IOCtlV s r).2.filterMap replyOfAction).countP (fun x => x.1 = h) +
      ((IOCtlV s r).2.filterMap pendingOfAction).countP (fun p => p.handle = h) =
      (if latchedRequest s.isWiiBtModule r = false ∧ r.handle = h then 1 else 0) := by
  rw [IOCtlV]
  by_cases hw : s.isWiiBtModule = false ∧ s.needResetKeys = true
  · rw [if_pos hw]
    have hb := IOCtlVBody_obligation { s with needResetKeys := false } r h
    simp only [List.filterMap_append, resync_filterMap_pending, resync_filterMap_reply,
      List.nil_append]
    simpa using hb
  · rw [if_neg hw]
    exact IOCtlVBody_obligation s r h

theorem IOCtlVBody_isWii (s : BTState) (r : Request) :
    (IOCtlVBody s r).1.isWiiBtModule = s.isWiiBtModule := by
  cases r <;> simp only [IOCtlVBody] <;> split_ifs <;> rfl

theorem IOCtlV_isWii (s : BTState) (r : Request) :
    (IOCtlV s r).1.isWiiBtModule = s.isWiiBtModule := by
  rw [IOCtlV]
  split_ifs with hw
  · exact IOCtlVBody_isWii { s with needResetKeys := false } r
  · exact IOCtlVBody_isWii s r

theorem runCallback_replies (bt : BTState) (p : PendingTransfer) (res : TransferResult) :
    (runCallback bt p res).2.filterMap replyOfAction = [(p.handle, res.actualLength)] := by
  rw [runCallback]
  split_ifs <;> simp [CommandCallback, TransferCallback, replyOfAction]

theorem runCallback_pendings (bt : BTState) (p : PendingTransfer) (res : TransferResult) :
    (runCallback bt p res).2.filterMap pendingOfAction = [] := by
  rw [runCallback]
  split_ifs <;> simp [CommandCallback, TransferCallback, pendingOfAction]

theorem runCallback_isWii (bt : BTState) (p : PendingTransfer) (res : TransferResult) :
    (runCallback bt p res).1.isWiiBtModule = bt.isWiiBtModule := by
  rw [runCallback]
  split_ifs <;> simp only [CommandCallback, TransferCallback] <;> split_ifs <;> rfl

theorem countP_eraseIdx {α : Type} (q : α → Bool) :
    ∀ (l : List α) (i : Nat) (x : α), l.get? i = some x →
      (l.eraseIdx i).countP q + (if q x then 1 else 0) = l.countP q := by
  intro l
  induction l with
  | nil => intro i x hx; simp at hx
  | cons a t ih =>
    intro i x hx
    cases i with
    | zero =>
      simp only [List.get?] at hx
      injection hx with hx
      subst hx
      simp [List.eraseIdx, List.countP_cons]
    | succ n =>
      simp only [List.get?] at hx
      have := ih n x hx
      simp only [List.eraseIdx, List.countP_cons]
      omega

theorem stepSys_isWii (σ : SysState) (e : SysEvent) :
    (stepSys σ e).bt.isWiiBtModule = σ.bt.isWiiBtModule := by
  cases e with
  | request r => exact IOCtlV_isWii σ.bt r
  | complete i res =>
    simp only [stepSys]
    cases hget : σ.pending.get? i with
    | none => rfl
    | some p => exact runCallback_isWii σ.bt p res

/-- One step changes the per-handle replies-plus-in-flight total by one
exactly when the event is a non-latched request with that handle. -/
theorem stepSys_counts (σ : SysState) (e : SysEvent) (h : Nat) :
    countReplies h (stepSys σ e) + countPending h (stepSys σ e) =
      countReplies h σ + countPending h σ +
        (match e with
         | .request r =>
           if latchedRequest σ.bt.isWiiBtModule r = false ∧ r.handle = h then 1 else 0
         | .complete _ _ => 0) := by
  cases e with
  | request r =>
    simp only [stepSys, countReplies, countPending, List.countP_append]
    have := IOCtlV_obligation σ.bt r h
    omega
  | complete i res =>
    simp only [stepSys]
    cases hget : σ.pending.get? i with
    | none => simp [countReplies, countPending]
    | some p =>
      simp only [countReplies, countPending, List.countP_append]
      rw [runCallback_replies]
      have her := countP_eraseIdx (fun pt => decide (pt.handle = h)) σ.pending i p hget
      simp only [List.countP_cons, List.countP_nil]
      by_cases hp : p.handle = h <;> simp [hp] at her ⊢ <;> omega

theorem countRequests_cons (keep : Request → Bool) (h : Nat) (e : SysEvent)
    (es : List SysEvent) :
    countRequests keep h (e :: es) =
      countRequests keep h es +
        (match e with
         | .request r => if keep r = true ∧ r.handle = h then 1 else 0
         | .complete _ _ => 0) := by
  cases e with
  | request r =>
    simp only [countRequests, List.countP_cons]
    by_cases h1 : keep r = true <;> by_cases h2 : r.handle = h <;> simp [h1, h2]
  | complete i res =>
    simp [countRequests, List.countP_cons]

/-- Run-level accounting: over any event sequence, for every handle, the
replies delivered plus the transfers still in flight equal exactly the
non-latched requests accepted with that handle. -/
theorem runSys_counts : ∀ (events : List SysEvent) (σ : SysState) (h : Nat),
    countReplies h (runSys σ events) + countPending h (runSys σ events) =
      countReplies h σ + countPending h σ +
        countRequests (fun r => !(latchedRequest σ.bt.isWiiBtModule r)) h events := by
  intro events
  induction events with
  | nil => intro σ h; simp [runSys, countRequests]
  | cons e es ih =>
    intro σ h
    rw [show runSys σ (e :: es) = runSys (stepSys σ e) es from rfl]
    rw [ih (stepSys σ e) h]
    rw [stepSys_isWii σ e]
    rw [stepSys_counts σ e h]
    rw [countRequests_cons]
    cases e with
    | request r =>
      by_cases hl : latchedRequest σ.bt.isWiiBtModule r = false <;>
        by_cases hh : r.handle = h <;>
          (first
            | (simp [hl, hh]; omega)
            | simp [hl, hh])
    | complete i res => simp

theorem countRequests_mono (keep : Request → Bool) :
    ∀ (es : List SysEvent) (h : Nat),
      countRequests keep h es ≤ countRequests (fun _ => true) h es := by
  intro es
  induction es with
  | nil => intro h; simp [countRequests]
  | cons e es ih =>
    intro h
    rw [countRequests_cons, countRequests_cons]
    cases e with
    | request r =>
      have := ih h
      by_cases hh : r.handle = h <;> by_cases hk : keep r = true <;>
        simp [hh, hk] <;> omega
    | complete i res => simpa using ih h

theorem countRequests_eq_zero_of_not_mem (h : Nat) :
    ∀ es : List SysEvent, h ∉ requestHandles es →
      countRequests (fun _ => true) h es = 0 := by
  intro es
  induction es with
  | nil => intro _; simp [countRequests]
  | cons e es ih =>
    intro hmem
    rw [countRequests_cons]
    cases e with
    | request r =>
      have hr : requestHandles (SysEvent.request r :: es) = r.handle :: requestHandles es := rfl
      rw [hr] at hmem
      have hne : ¬(r.handle = h) := by
        intro hc
        exact hmem (hc ▸ List.mem_cons_self _ _)
      have hm2 : h ∉ requestHandles es := fun hc => hmem (List.mem_cons_of_mem _ hc)
      simp [hne, ih hm2]
    | complete i res =>
      have hr : requestHandles (SysEvent.complete i res :: es) = requestHandles es := rfl
      rw [hr] at hmem
      simpa using ih hmem

theorem countRequests_le_one_of_nodup (h : Nat) :
    ∀ es : List SysEvent, (requestHandles es).Nodup →
      countRequests (fun _ => true) h es ≤ 1 := by
  intro es
  induction es with
  | nil => intro _; simp [countRequests]
  | cons e es ih =>
    intro hnd
    rw [countRequests_cons]
    cases e with
    | request r =>
      have hr : requestHandles (SysEvent.request r :: es) = r.handle :: requestHandles es := rfl
      rw [hr] at hnd
      have hnotin := (List.nodup_cons.mp hnd).1
      have hnd2 := (List.nodup_cons.mp hnd).2
      by_cases hh : r.handle = h
      · subst hh
        have hz := countRequests_eq_zero_of_not_mem r.handle es hnotin
        simp [hz]
      · have := ih hnd2
        simp [hh]
        omega
    | complete i res =>
      have hr : requestHandles (SysEvent.complete i res :: es) = requestHandles es := rfl
      rw [hr] at hnd
      simpa using ih hnd

/-- Claim C1 (amended): in any session run — requests interleaved with
transport completions, the transport delivering exactly one completion
per in-flight transfer — every accepted request except the latched
control requests (read-buffer-size, and vendor pairing commands on a
non-first-party adapter) is answered exactly once: per handle, replies
delivered plus transfers still in flight equal the non-latched requests
accepted with that handle; no handle is ever replied to more often than
it was requested, and with distinct handles no handle is replied to
twice.  Latched control requests receive no reply on their own handle
(their synthesized reply goes to a later interrupt request's handle). -/
theorem C1_reply_accounting (bt : BTState) (events : List SysEvent) (h : Nat) :
    countReplies h (runSys (initSys bt) events) +
        countPending h (runSys (initSys bt) events) =
      countRequests (fun r => !(latchedRequest bt.isWiiBtModule r)) h events ∧
    countReplies h (runSys (initSys bt) events) ≤
      countRequests (fun _ => true) h events ∧
    ((requestHandles events).Nodup → countReplies h (runSys (initSys bt) events) ≤ 1) := by
  have hmain := runSys_counts events (initSys bt) h
  have h0r : countReplies h (initSys bt) = 0 := by simp [countReplies, initSys]
  have h0p : countPending h (initSys bt) = 0 := by simp [countPending, initSys]
  rw [h0r, h0p] at hmain
  rw [show (initSys bt).bt.isWiiBtModule = bt.isWiiBtModule from rfl] at hmain
  have hle := countRequests_mono (fun r => !(latchedRequest bt.isWiiBtModule r)) events h
  refine ⟨by omega, by omega, ?_⟩
  intro hnd
  have := countRequests_le_one_of_nodup h events hnd
  omega

/-- Claim C1 counterexample: a read-buffer-size control request is
accepted (the latch is set) but the run ends quiescent with no reply
delivered and no transfer in flight — the request's handle has been
dropped, never to be replied, contradicting "exactly one reply is
eventually delivered for that request's handle ... none is dropped,
including ... the fake-reply latch paths". -/
theorem C1_counterexample_latched_request_dropped :
    (runSys (initSys initBT)
        [SysEvent.request (Request.ctrlMsg (mkCtrl 1 HCI_CMD_READ_BUFFER_SIZE))]).replies
        = [] ∧
      (runSys (initSys initBT)
        [SysEvent.request (Request.ctrlMsg (mkCtrl 1 HCI_CMD_READ_BUFFER_SIZE))]).pending
        = [] := by
  decide

/-- Claim C1 witness: one forwarded bulk request completed by its
callback — the accounting equation at its handle, and the no-double-reply
bound under distinct handles. -/
theorem C1_reply_accounting_witness :
    (countReplies 1 (runSys (initSys initBT)
          [SysEvent.request (Request.blkMsg (mkIntr 1)),
           SysEvent.complete 0 { status := 0, actualLength := 3, buffer := [1, 2, 3] }]) +
        countPending 1 (runSys (initSys initBT)
          [SysEvent.request (Request.blkMsg (mkIntr 1)),
           SysEvent.complete 0 { status := 0, actualLength := 3, buffer := [1, 2, 3] }]) =
      countRequests (fun r => !(latchedRequest initBT.isWiiBtModule r)) 1
        [SysEvent.request (Request.blkMsg (mkIntr 1)),
         SysEvent.complete 0 { status := 0, actualLength := 3, buffer := [1, 2, 3] }]) ∧
      countReplies 1 (runSys (initSys initBT)
          [SysEvent.request (Request.blkMsg (mkIntr 1)),
           SysEvent.complete 0 { status := 0, actualLength := 3, buffer := [1, 2, 3] }]) ≤ 1 :=
  ⟨(C1_reply_accounting initBT
      [SysEvent.request (Request.blkMsg (mkIntr 1)),
       SysEvent.complete 0 { status := 0, actualLength := 3, buffer := [1, 2, 3] }] 1).1,
   (C1_reply_accounting initBT
      [SysEvent.request (Request.blkMsg (mkIntr 1)),
       SysEvent.complete 0 { status := 0, actualLength := 3, buffer := [1, 2, 3] }] 1).2.2
     (by decide)⟩

end BTReal
